import Mathlib

/-!
Shallow embedding of the lib-rv32i two-pass assembler core
(`src/assembler/src/assembler.rs`).

The file embeds `parse_labels`, `assemble_ir` and `assemble_program` from the
source file directly.  The helpers that the source file imports from other
crates of the repository (the `tokenize!` macro, the `encode_*!` field-packing
macros, `match_opcode`, `match_register`, `match_func3!`, `match_func7!`,
`parse_imm`, `transform_psuedo_ir`, the opcode constants and the
`AssemblerError` enum) are not under `src/`; each of those carries a doc
comment starting with `Modelled from the spec:` and follows the spec's
description of the missing component.
-/

/-- Modelled from the spec: the crate's `AssemblerError` enum (`error.rs`, not
under `src/`), following the error taxonomy of spec section 7.
`InternalError` additionally models the `unreachable!()` panic arm of the
format match in `assemble_ir`. -/
inductive AssemblerError where
  | TooManyTokensError
  | UnknownMnemonicError
  | UnknownRegisterError
  | UndefinedLabelError
  | ImmediateParseError
  | ImmediateRangeError
  | InternalError
  deriving DecidableEq, Repr

/-- The `InstructionFormat` enum of `src/assembler/src/assembler.rs`. -/
inductive InstructionFormat where
  | Itype
  | Rtype
  | Jtype
  | Utype
  | Stype
  | Btype
  deriving DecidableEq, Repr

/-- Modelled from the spec: comment removal of the `tokenize!` macro of
lib_rv32_common (not under `src/`); spec section 4.1 requires comment text
stripped.  Comments start at the comment character. -/
def dropComment (cs : List Char) : List Char := cs.takeWhile (fun c => c ≠ '#')

/-- Modelled from the spec: token delimiters (spec section 6): whitespace and
commas. -/
def isDelim (c : Char) : Bool := c = ' ' || c = '\t' || c = ',' || c = '\r'

/-- Split a character list at delimiters, dropping empty pieces.  `cur` holds
the current token's characters in reverse. -/
def splitDelims : List Char → List Char → List (List Char)
  | [], cur => if cur = [] then [] else [cur.reverse]
  | c :: rest, cur =>
    if isDelim c then
      if cur = [] then splitDelims rest []
      else cur.reverse :: splitDelims rest []
    else splitDelims rest (c :: cur)

/-- Modelled from the spec: the `tokenize!` macro of lib_rv32_common (not
under `src/`); spec section 4.1: one line becomes an ordered sequence of
non-empty tokens, with comments and separator punctuation removed, and empty
or comment-only lines yield an empty sequence. -/
def tokenize (line : String) : List String :=
  (splitDelims (dropComment line.data) []).map List.asString

/-- Model of Rust `str::ends_with(':')` applied to a token. -/
def endsWithColon (s : String) : Bool := s.data.getLast? = some ':'

/-- Model of Rust `tokens[0].strip_suffix(':').unwrap()`: in the source this
is evaluated only under an `ends_with(':')` guard, where it drops the final
colon. -/
def stripColonSuffix (s : String) : String := s.data.dropLast.asString

/-- The label table.  Models the observable behavior of the source's
`HashMap<String, u32>`: `insertLabel` overwrites any earlier binding of the
same key and `getLabel` returns the most recent binding. -/
abbrev Labels := List (String × Nat)

/-- Model of `HashMap::insert` (most recent binding shadows earlier ones). -/
def insertLabel (m : Labels) (k : String) (v : Nat) : Labels := (k, v) :: m

/-- Model of `HashMap::get`. -/
def getLabel (m : Labels) (k : String) : Option Nat :=
  (m.find? (fun p => p.1 = k)).map Prod.snd

/-- Model of Rust `program.split('\n')`: split at each line feed, keeping
empty pieces.  `cur` holds the current line's characters in reverse. -/
def splitNewlines : List Char → List Char → List String
  | [], cur => [cur.reverse.asString]
  | c :: rest, cur =>
    if c = '\n' then cur.reverse.asString :: splitNewlines rest []
    else splitNewlines rest (c :: cur)

/-- The lines of a program, as in Rust `program.split('\n')`. -/
def splitLines (program : String) : List String := splitNewlines program.data []

/-- The running state of the label pass: the pc and the table built so far. -/
structure LabelPassState where
  pc : Nat
  labels : Labels
  deriving Repr

/-- The body of the `for line in program.split('\n')` loop of `parse_labels`
(`src/assembler/src/assembler.rs` lines 25-39). -/
def parseLabelsStep (st : LabelPassState) (line : String) : LabelPassState :=
  match tokenize line with
  | [] => st
  | t :: rest =>
    if endsWithColon t then
      let labels := insertLabel st.labels (stripColonSuffix t) st.pc
      if rest.length > 0 then ⟨st.pc + 4, labels⟩ else ⟨st.pc, labels⟩
    else ⟨st.pc + 4, st.labels⟩

/-- `parse_labels` (`src/assembler/src/assembler.rs` lines 21-41). -/
def parse_labels (program : String) : Labels :=
  ((splitLines program).foldl parseLabelsStep ⟨0, []⟩).labels

/-- Modelled from the spec: the opcode constants of lib_rv32_common (not
under `src/`), the 7-bit opcode values of the base RV32I opcode families. -/
def OPCODE_LUI : Nat := 0x37

/-- Modelled from the spec: see `OPCODE_LUI`. -/
def OPCODE_AUIPC : Nat := 0x17

/-- Modelled from the spec: see `OPCODE_LUI`. -/
def OPCODE_JAL : Nat := 0x6f

/-- Modelled from the spec: see `OPCODE_LUI`. -/
def OPCODE_JALR : Nat := 0x67

/-- Modelled from the spec: see `OPCODE_LUI`. -/
def OPCODE_BRANCH : Nat := 0x63

/-- Modelled from the spec: see `OPCODE_LUI`. -/
def OPCODE_LOAD : Nat := 0x03

/-- Modelled from the spec: see `OPCODE_LUI`. -/
def OPCODE_STORE : Nat := 0x23

/-- Modelled from the spec: see `OPCODE_LUI`. -/
def OPCODE_ARITHMETIC_IMM : Nat := 0x13

/-- Modelled from the spec: see `OPCODE_LUI`. -/
def OPCODE_ARITHMETIC : Nat := 0x33

/-- Modelled from the spec: the mnemonic-to-opcode table behind
`match_opcode` (not under `src/`); spec section 4.4: a fixed mnemonic
descriptor table for the base instruction set. -/
def opcodeTable : List (String × Nat) :=
  [("lui", OPCODE_LUI), ("auipc", OPCODE_AUIPC),
   ("jal", OPCODE_JAL), ("jalr", OPCODE_JALR),
   ("beq", OPCODE_BRANCH), ("bne", OPCODE_BRANCH), ("blt", OPCODE_BRANCH),
   ("bge", OPCODE_BRANCH), ("bltu", OPCODE_BRANCH), ("bgeu", OPCODE_BRANCH),
   ("lb", OPCODE_LOAD), ("lh", OPCODE_LOAD), ("lw", OPCODE_LOAD),
   ("lbu", OPCODE_LOAD), ("lhu", OPCODE_LOAD),
   ("sb", OPCODE_STORE), ("sh", OPCODE_STORE), ("sw", OPCODE_STORE),
   ("addi", OPCODE_ARITHMETIC_IMM), ("slti", OPCODE_ARITHMETIC_IMM),
   ("sltiu", OPCODE_ARITHMETIC_IMM), ("xori", OPCODE_ARITHMETIC_IMM),
   ("ori", OPCODE_ARITHMETIC_IMM), ("andi", OPCODE_ARITHMETIC_IMM),
   ("slli", OPCODE_ARITHMETIC_IMM), ("srli", OPCODE_ARITHMETIC_IMM),
   ("srai", OPCODE_ARITHMETIC_IMM),
   ("add", OPCODE_ARITHMETIC), ("sub", OPCODE_ARITHMETIC),
   ("sll", OPCODE_ARITHMETIC), ("slt", OPCODE_ARITHMETIC),
   ("sltu", OPCODE_ARITHMETIC), ("xor", OPCODE_ARITHMETIC),
   ("srl", OPCODE_ARITHMETIC), ("sra", OPCODE_ARITHMETIC),
   ("or", OPCODE_ARITHMETIC), ("and", OPCODE_ARITHMETIC)]

/-- Modelled from the spec: `match_opcode` of the crate's parse module (not
under `src/`); spec section 4.4: `resolve_opcode(mnemonic) -> opcode |
UnknownMnemonicError`. -/
def match_opcode (op : String) : Except AssemblerError Nat :=
  match opcodeTable.find? (fun p => p.1 = op) with
  | some p => .ok p.2
  | none => .error .UnknownMnemonicError

/-- Modelled from the spec: the register-name table behind `match_register`
(not under `src/`); spec section 4.4: numeric names and ABI aliases, each
mapping to an index in [0, 31]. -/
def registerTable : List (String × Nat) :=
  [("x0", 0), ("x1", 1), ("x2", 2), ("x3", 3), ("x4", 4), ("x5", 5),
   ("x6", 6), ("x7", 7), ("x8", 8), ("x9", 9), ("x10", 10), ("x11", 11),
   ("x12", 12), ("x13", 13), ("x14", 14), ("x15", 15), ("x16", 16),
   ("x17", 17), ("x18", 18), ("x19", 19), ("x20", 20), ("x21", 21),
   ("x22", 22), ("x23", 23), ("x24", 24), ("x25", 25), ("x26", 26),
   ("x27", 27), ("x28", 28), ("x29", 29), ("x30", 30), ("x31", 31),
   ("zero", 0), ("ra", 1), ("sp", 2), ("gp", 3), ("tp", 4),
   ("t0", 5), ("t1", 6), ("t2", 7), ("s0", 8), ("fp", 8), ("s1", 9),
   ("a0", 10), ("a1", 11), ("a2", 12), ("a3", 13), ("a4", 14), ("a5", 15),
   ("a6", 16), ("a7", 17), ("s2", 18), ("s3", 19), ("s4", 20), ("s5", 21),
   ("s6", 22), ("s7", 23), ("s8", 24), ("s9", 25), ("s10", 26), ("s11", 27),
   ("t3", 28), ("t4", 29), ("t5", 30), ("t6", 31)]

/-- Modelled from the spec: `match_register` of the crate's parse module (not
under `src/`); spec section 4.4: `resolve_register(name) -> index in [0,31] |
UnknownRegisterError`. -/
def match_register (name : String) : Except AssemblerError Nat :=
  match registerTable.find? (fun p => p.1 = name) with
  | some p => .ok p.2
  | none => .error .UnknownRegisterError

/-- Modelled from the spec: the func3 table behind the `match_func3!` macro
(not under `src/`); spec section 4.4, with the standard RV32I values. -/
def func3Table : List (String × Nat) :=
  [("jalr", 0),
   ("beq", 0), ("bne", 1), ("blt", 4), ("bge", 5), ("bltu", 6), ("bgeu", 7),
   ("lb", 0), ("lh", 1), ("lw", 2), ("lbu", 4), ("lhu", 5),
   ("sb", 0), ("sh", 1), ("sw", 2),
   ("addi", 0), ("slti", 2), ("sltiu", 3), ("xori", 4), ("ori", 6),
   ("andi", 7), ("slli", 1), ("srli", 5), ("srai", 5),
   ("add", 0), ("sub", 0), ("sll", 1), ("slt", 2), ("sltu", 3), ("xor", 4),
   ("srl", 5), ("sra", 5), ("or", 6), ("and", 7)]

/-- Modelled from the spec: the `match_func3!` macro (not under `src/`). -/
def match_func3 (op : String) : Nat :=
  ((func3Table.find? (fun p => p.1 = op)).map Prod.snd).getD 0

/-- Modelled from the spec: the func7 table behind the `match_func7!` macro
(not under `src/`); spec section 4.4, with the standard RV32I values. -/
def func7Table : List (String × Nat) :=
  [("add", 0), ("sub", 0x20), ("sll", 0), ("slt", 0), ("sltu", 0),
   ("xor", 0), ("srl", 0), ("sra", 0x20), ("or", 0), ("and", 0)]

/-- Modelled from the spec: the `match_func7!` macro (not under `src/`). -/
def match_func7 (op : String) : Nat :=
  ((func7Table.find? (fun p => p.1 = op)).map Prod.snd).getD 0

/-- Decimal digit value of a character, if any (code points 48-57). -/
def decDigit (c : Char) : Option Nat :=
  let n := c.toNat
  if 48 ≤ n ∧ n ≤ 57 then some (n - 48) else none

/-- Hexadecimal digit value of a character, if any: `0`-`9` are code points
48-57, `a`-`f` are 97-102, `A`-`F` are 65-70. -/
def hexDigit (c : Char) : Option Nat :=
  let n := c.toNat
  if 48 ≤ n ∧ n ≤ 57 then some (n - 48)
  else if 97 ≤ n ∧ n ≤ 102 then some (n - 87)
  else if 65 ≤ n ∧ n ≤ 70 then some (n - 55)
  else none

/-- Accumulate digit characters in the given base; fails on a non-digit. -/
def digitsValue (digit : Char → Option Nat) (base : Nat) :
    List Char → Nat → Option Nat
  | [], acc => some acc
  | c :: rest, acc =>
    match digit c with
    | some d => digitsValue digit base rest (acc * base + d)
    | none => none

/-- Parse an unsigned numeric literal: hexadecimal with a `0x` prefix,
decimal otherwise; fails on an empty digit string or a non-digit. -/
def natLiteral (cs : List Char) : Option Nat :=
  match cs with
  | [] => none
  | '0' :: 'x' :: rest =>
    if rest = [] then none else digitsValue hexDigit 16 rest 0
  | cs => digitsValue decDigit 10 cs 0

/-- Parse an optionally negated numeric literal. -/
def intLiteral (s : String) : Option Int :=
  match s.data with
  | '-' :: rest => (natLiteral rest).map (fun n => -(n : Int))
  | cs => (natLiteral cs).map (fun n => (n : Int))

/-- Modelled from the spec: `parse_imm` of the crate's parse module (not
under `src/`); spec section 4.5: a numeric literal (decimal or hexadecimal)
is returned as-is; otherwise the token is a label name, failing with
`UndefinedLabelError` when absent and otherwise resolving to the byte offset
`label_address - pc` relative to the current instruction (the form the
encoder packs directly, per the branch scenario of spec section 8). -/
def parse_imm (token : String) (labels : Labels) (pc : Nat) :
    Except AssemblerError Int :=
  match intLiteral token with
  | some v => .ok v
  | none =>
    match getLabel labels token with
    | some addr => .ok ((addr : Int) - (pc : Int))
    | none => .error .UndefinedLabelError

/-- Two's-complement 32-bit image of a signed value (`as u32` in the encode
macros). -/
def u32ofInt (i : Int) : Nat := (i % ((2 : Int) ^ 32)).toNat

/-- Modelled from the spec: the `encode_opcode!` macro (not under `src/`);
spec section 4.6: bits[6:0] = opcode. -/
def encode_opcode (op : Nat) : Nat := op &&& 0x7f

/-- Modelled from the spec: the `encode_rd!` macro (not under `src/`);
spec section 4.6: bits[11:7] = rd. -/
def encode_rd (rd : Nat) : Nat := (rd &&& 0x1f) <<< 7

/-- Modelled from the spec: the `encode_rs1!` macro (not under `src/`);
spec section 4.6: bits[19:15] = rs1. -/
def encode_rs1 (rs1 : Nat) : Nat := (rs1 &&& 0x1f) <<< 15

/-- Modelled from the spec: the `encode_rs2!` macro (not under `src/`);
spec section 4.6: bits[24:20] = rs2. -/
def encode_rs2 (rs2 : Nat) : Nat := (rs2 &&& 0x1f) <<< 20

/-- Modelled from the spec: the `encode_func3!` macro (not under `src/`);
spec section 4.6: bits[14:12] = func3. -/
def encode_func3 (f3 : Nat) : Nat := (f3 &&& 0x7) <<< 12

/-- Modelled from the spec: the `encode_func7!` macro (not under `src/`);
spec section 4.6: bits[31:25] = func7. -/
def encode_func7 (f7 : Nat) : Nat := (f7 &&& 0x7f) <<< 25

/-- Modelled from the spec: the `encode_i_imm!` macro (not under `src/`);
spec section 4.6: bits[31:20] = 12-bit immediate; out-of-range values are
silently truncated via bit masking (spec sections 4.6 and 9). -/
def encode_i_imm (imm : Int) : Nat := (u32ofInt imm &&& 0xfff) <<< 20

/-- Modelled from the spec: the `encode_u_imm!` macro (not under `src/`);
spec section 4.6: bits[31:12] = the upper 20 bits of the value. -/
def encode_u_imm (imm : Int) : Nat := (u32ofInt imm >>> 12) <<< 12

/-- Modelled from the spec: the `encode_s_imm!` macro (not under `src/`);
spec section 4.6: a 12-bit immediate split as bits[11:7] = imm[4:0] and
bits[31:25] = imm[11:5]; excess bits are masked away. -/
def encode_s_imm (imm : Int) : Nat :=
  ((u32ofInt imm &&& 0x1f) <<< 7) ||| (((u32ofInt imm >>> 5) &&& 0x7f) <<< 25)

/-- Modelled from the spec: the `encode_b_imm!` macro (not under `src/`);
spec section 4.6: a 13-bit immediate (bit 0 implicit) scattered as
bit[31] = imm[12], bits[30:25] = imm[10:5], bits[11:8] = imm[4:1],
bit[7] = imm[11]; excess bits are masked away. -/
def encode_b_imm (imm : Int) : Nat :=
  (((u32ofInt imm >>> 12) &&& 0x1) <<< 31) |||
    (((u32ofInt imm >>> 5) &&& 0x3f) <<< 25) |||
    (((u32ofInt imm >>> 1) &&& 0xf) <<< 8) |||
    (((u32ofInt imm >>> 11) &&& 0x1) <<< 7)

/-- Modelled from the spec: the `encode_j_imm!` macro (not under `src/`);
spec section 4.6: a 21-bit immediate (bit 0 implicit) scattered as
bit[31] = imm[20], bits[30:21] = imm[10:1], bit[20] = imm[11],
bits[19:12] = imm[19:12]; excess bits are masked away. -/
def encode_j_imm (imm : Int) : Nat :=
  (((u32ofInt imm >>> 20) &&& 0x1) <<< 31) |||
    (((u32ofInt imm >>> 1) &&& 0x3ff) <<< 21) |||
    (((u32ofInt imm >>> 11) &&& 0x1) <<< 20) |||
    (((u32ofInt imm >>> 12) &&& 0xff) <<< 12)

/-- Modelled from the spec: the pseudo-instruction rewrites recognized by
`transform_psuedo_ir` of the crate's parse module (not under `src/`); spec
sections 2 and 4.3: recognized pseudo mnemonics are rewritten into base
instruction token sequences, everything else passes through unchanged.
Returns `none` for a token sequence that is not a recognized pseudo form. -/
def pseudoExpand : List String → Option (List (List String))
  | ["nop"] => some [["addi", "x0", "x0", "0"]]
  | ["mv", rd, rs] => some [["addi", rd, rs, "0"]]
  | ["j", offset] => some [["jal", "x0", offset]]
  | _ => none

/-- Modelled from the spec: `transform_psuedo_ir` of the crate's parse module
(not under `src/`); spec section 4.3: rewrite recognized pseudo forms, pass
every other token sequence through unchanged (base-mnemonic validation is
left to encode time). -/
def transform_psuedo_ir (tokens : List String) :
    Except AssemblerError (List (List String)) :=
  match pseudoExpand tokens with
  | some irs => .ok irs
  | none => .ok [tokens]

/-- Total projection of operand-token access: `""` when the token is absent.
The source indexes `ir_tokens[i]` unconditionally and PANICS on a missing
token (e.g. `&ir_tokens[1]` at `src/assembler/src/assembler.rs` line 107);
that crash path is modelled faithfully by `getTokenP` and the `...P`
variants of the pipeline below, with `none` standing for the panic.  The
total `tokenAt` model agrees with the faithful one on every execution that
does not panic (`assemble_irP_agree`), and it is used by the claims whose
truth does not depend on the panic path. -/
def tokenAt (tokens : List String) (i : Nat) : String := (tokens.get? i).getD ""

/-- Token index holding rs1, from the `match opcode` at
`src/assembler/src/assembler.rs` lines 121-125. -/
def rs1TokenIndex (opcode : Nat) : Nat :=
  if opcode = OPCODE_LOAD then 3 else if opcode = OPCODE_BRANCH then 1 else 2

/-- Token index holding rs2, from the `match opcode` at
`src/assembler/src/assembler.rs` lines 140-144. -/
def rs2TokenIndex (opcode : Nat) : Nat :=
  if opcode = OPCODE_STORE then 1 else if opcode = OPCODE_BRANCH then 2 else 3

/-- Token index holding the I-type immediate, from the `match opcode` at
`src/assembler/src/assembler.rs` lines 160-163. -/
def iImmTokenIndex (opcode : Nat) : Nat := if opcode = OPCODE_LOAD then 2 else 3

/-- The `match opcode` selecting the instruction format
(`src/assembler/src/assembler.rs` lines 93-101); `none` is the
`unreachable!()` arm. -/
def classifyFormat (opcode : Nat) : Option InstructionFormat :=
  if opcode = OPCODE_ARITHMETIC_IMM ∨ opcode = OPCODE_JALR ∨
      opcode = OPCODE_LOAD then some .Itype
  else if opcode = OPCODE_ARITHMETIC then some .Rtype
  else if opcode = OPCODE_JAL then some .Jtype
  else if opcode = OPCODE_LUI ∨ opcode = OPCODE_AUIPC then some .Utype
  else if opcode = OPCODE_BRANCH then some .Btype
  else if opcode = OPCODE_STORE then some .Stype
  else none

/-- The `if let` pattern guarding the rd field
(`src/assembler/src/assembler.rs` lines 104-106). -/
def usesRd : InstructionFormat → Bool
  | .Rtype | .Itype | .Utype => true
  | _ => false

/-- The `if let` pattern guarding the rs1/func3 fields
(`src/assembler/src/assembler.rs` lines 115-118). -/
def usesRs1 : InstructionFormat → Bool
  | .Itype | .Rtype | .Btype | .Stype => true
  | _ => false

/-- The `if let` pattern guarding the rs2 field
(`src/assembler/src/assembler.rs` lines 136-137). -/
def usesRs2 : InstructionFormat → Bool
  | .Rtype | .Stype | .Btype => true
  | _ => false

/-- The `if let` pattern guarding the func7 field
(`src/assembler/src/assembler.rs` line 153). -/
def usesFunc7 : InstructionFormat → Bool
  | .Rtype => true
  | _ => false

/-- The rd stage of `assemble_ir` (`src/assembler/src/assembler.rs` lines
103-112). -/
def encodeRdField (format : InstructionFormat) (toks : List String)
    (ir : Nat) : Except AssemblerError Nat :=
  if usesRd format then
    match match_register (tokenAt toks 1) with
    | .error why => .error why
    | .ok rd => .ok (ir ||| encode_rd rd)
  else .ok ir

/-- The rs1/func3 stage of `assemble_ir` (`src/assembler/src/assembler.rs`
lines 114-133). -/
def encodeRs1Field (opcode : Nat) (format : InstructionFormat)
    (toks : List String) (ir : Nat) : Except AssemblerError Nat :=
  if usesRs1 format then
    match match_register (tokenAt toks (rs1TokenIndex opcode)) with
    | .error why => .error why
    | .ok rs1 =>
      .ok (ir ||| encode_rs1 rs1 ||| encode_func3 (match_func3 (tokenAt toks 0)))
  else .ok ir

/-- The rs2 stage of `assemble_ir` (`src/assembler/src/assembler.rs` lines
135-150). -/
def encodeRs2Field (opcode : Nat) (format : InstructionFormat)
    (toks : List String) (ir : Nat) : Except AssemblerError Nat :=
  if usesRs2 format then
    match match_register (tokenAt toks (rs2TokenIndex opcode)) with
    | .error why => .error why
    | .ok rs2 => .ok (ir ||| encode_rs2 rs2)
  else .ok ir

/-- The func7 stage of `assemble_ir` (`src/assembler/src/assembler.rs` lines
152-155). -/
def encodeFunc7Field (format : InstructionFormat) (toks : List String)
    (ir : Nat) : Nat :=
  if usesFunc7 format then ir ||| encode_func7 (match_func7 (tokenAt toks 0))
  else ir

/-- The immediate stage of `assemble_ir`: the `match format` at
`src/assembler/src/assembler.rs` lines 157-206. -/
def encodeImmField (opcode : Nat) (format : InstructionFormat)
    (toks : List String) (labels : Labels) (pc : Nat) (ir : Nat) :
    Except AssemblerError Nat :=
  match format with
  | .Itype =>
    match parse_imm (tokenAt toks (iImmTokenIndex opcode)) labels pc with
    | .error why => .error why
    | .ok imm => .ok (ir ||| encode_i_imm imm)
  | .Utype =>
    match parse_imm (tokenAt toks 2) labels pc with
    | .error why => .error why
    | .ok imm => .ok (ir ||| encode_u_imm imm)
  | .Jtype =>
    match parse_imm (tokenAt toks 2) labels pc with
    | .error why => .error why
    | .ok imm => .ok (ir ||| encode_j_imm imm)
  | .Btype =>
    match parse_imm (tokenAt toks 3) labels pc with
    | .error why => .error why
    | .ok imm => .ok (ir ||| encode_b_imm imm)
  | .Stype =>
    match parse_imm (tokenAt toks 2) labels pc with
    | .error why => .error why
    | .ok imm => .ok (ir ||| encode_s_imm imm)
  | .Rtype => .ok ir

/-- Assembly of one base instruction: the body of the
`for ir_tokens in base_instructions` loop at
`src/assembler/src/assembler.rs` lines 81-210, up to the push of the word. -/
def assembleOneIr (toks : List String) (labels : Labels) (pc : Nat) :
    Except AssemblerError Nat :=
  match match_opcode (tokenAt toks 0) with
  | .error why => .error why
  | .ok opcode =>
    match classifyFormat opcode with
    | none => .error .InternalError
    | some format =>
      match encodeRdField format toks (encode_opcode opcode) with
      | .error why => .error why
      | .ok ir1 =>
        match encodeRs1Field opcode format toks ir1 with
        | .error why => .error why
        | .ok ir2 =>
          match encodeRs2Field opcode format toks ir2 with
          | .error why => .error why
          | .ok ir3 =>
            encodeImmField opcode format toks labels pc
              (encodeFunc7Field format toks ir3)

/-- The `for ir_tokens in base_instructions` loop of `assemble_ir`
(`src/assembler/src/assembler.rs` lines 81-212): assemble each expanded
instruction in turn, advancing pc by 4 after each emitted word; the first
error aborts, leaving pc at its current value. -/
def assembleIrLoop (irs : List (List String)) (labels : Labels) (pc : Nat) :
    Except AssemblerError (List Nat) × Nat :=
  match irs with
  | [] => (.ok [], pc)
  | toks :: rest =>
    match assembleOneIr toks labels pc with
    | .error why => (.error why, pc)
    | .ok w =>
      match assembleIrLoop rest labels (pc + 4) with
      | (.ok ws, pc') => (.ok (w :: ws), pc')
      | (.error why, pc') => (.error why, pc')

/-- Stripping of a leading label token (`src/assembler/src/assembler.rs`
lines 67-70). -/
def stripLeadingLabel (tokens : List String) : List String :=
  match tokens with
  | [] => []
  | t :: rest => if endsWithColon t then rest else tokens

/-- `assemble_ir` (`src/assembler/src/assembler.rs` lines 52-215).  The
second component is the final value of the `pc: &mut u32` parameter. -/
def assemble_ir (ir_string : String) (labels : Labels) (pc : Nat) :
    Except AssemblerError (List Nat) × Nat :=
  let line_tokens := tokenize ir_string
  if line_tokens = [] then (.ok [], pc)
  else if line_tokens.length > 5 then (.error .TooManyTokensError, pc)
  else
    let line_tokens := stripLeadingLabel line_tokens
    if line_tokens = [] then (.ok [], pc)
    else
      match transform_psuedo_ir line_tokens with
      | .error why => (.error why, pc)
      | .ok base_instructions => assembleIrLoop base_instructions labels pc

/-- The `for line in program.split('\n')` loop of `assemble_program`
(`src/assembler/src/assembler.rs` lines 224-234). -/
def assembleLines (lines : List String) (labels : Labels) (pc : Nat) :
    Except AssemblerError (List Nat) :=
  match lines with
  | [] => .ok []
  | l :: rest =>
    match assemble_ir l labels pc with
    | (.error why, _) => .error why
    | (.ok ws, pc') =>
      match assembleLines rest labels pc' with
      | .error why => .error why
      | .ok rest' => .ok (ws ++ rest')

/-- `assemble_program` (`src/assembler/src/assembler.rs` lines 218-237). -/
def assemble_program (program : String) : Except AssemblerError (List Nat) :=
  assembleLines (splitLines program) (parse_labels program) 0

/-- Faithful model of the source's unconditional `ir_tokens[i]` indexing:
`none` is the out-of-bounds panic that aborts the whole process (Rust index
out of range, e.g. `&ir_tokens[1]` at `src/assembler/src/assembler.rs`
line 107). -/
def getTokenP (toks : List String) (i : Nat) : Option String := toks.get? i

/-- Panic-aware rd stage: `none` models the index panic on a missing rd
token. -/
def encodeRdFieldP (format : InstructionFormat) (toks : List String)
    (ir : Nat) : Option (Except AssemblerError Nat) :=
  if usesRd format then
    match getTokenP toks 1 with
    | none => none
    | some t =>
      match match_register t with
      | .error why => some (.error why)
      | .ok rd => some (.ok (ir ||| encode_rd rd))
  else some (.ok ir)

/-- Panic-aware rs1/func3 stage.  The func3 lookup uses the mnemonic token,
already fetched by the caller (the source binds `op` from `ir_tokens[0]`
before this stage). -/
def encodeRs1FieldP (opcode : Nat) (format : InstructionFormat)
    (toks : List String) (ir : Nat) : Option (Except AssemblerError Nat) :=
  if usesRs1 format then
    match getTokenP toks (rs1TokenIndex opcode) with
    | none => none
    | some t =>
      match match_register t with
      | .error why => some (.error why)
      | .ok rs1 =>
        some (.ok (ir ||| encode_rs1 rs1
          ||| encode_func3 (match_func3 (tokenAt toks 0))))
  else some (.ok ir)

/-- Panic-aware rs2 stage. -/
def encodeRs2FieldP (opcode : Nat) (format : InstructionFormat)
    (toks : List String) (ir : Nat) : Option (Except AssemblerError Nat) :=
  if usesRs2 format then
    match getTokenP toks (rs2TokenIndex opcode) with
    | none => none
    | some t =>
      match match_register t with
      | .error why => some (.error why)
      | .ok rs2 => some (.ok (ir ||| encode_rs2 rs2))
  else some (.ok ir)

/-- Panic-aware immediate stage. -/
def encodeImmFieldP (opcode : Nat) (format : InstructionFormat)
    (toks : List String) (labels : Labels) (pc : Nat) (ir : Nat) :
    Option (Except AssemblerError Nat) :=
  match format with
  | .Itype =>
    match getTokenP toks (iImmTokenIndex opcode) with
    | none => none
    | some t =>
      match parse_imm t labels pc with
      | .error why => some (.error why)
      | .ok imm => some (.ok (ir ||| encode_i_imm imm))
  | .Utype =>
    match getTokenP toks 2 with
    | none => none
    | some t =>
      match parse_imm t labels pc with
      | .error why => some (.error why)
      | .ok imm => some (.ok (ir ||| encode_u_imm imm))
  | .Jtype =>
    match getTokenP toks 2 with
    | none => none
    | some t =>
      match parse_imm t labels pc with
      | .error why => some (.error why)
      | .ok imm => some (.ok (ir ||| encode_j_imm imm))
  | .Btype =>
    match getTokenP toks 3 with
    | none => none
    | some t =>
      match parse_imm t labels pc with
      | .error why => some (.error why)
      | .ok imm => some (.ok (ir ||| encode_b_imm imm))
  | .Stype =>
    match getTokenP toks 2 with
    | none => none
    | some t =>
      match parse_imm t labels pc with
      | .error why => some (.error why)
      | .ok imm => some (.ok (ir ||| encode_s_imm imm))
  | .Rtype => some (.ok ir)

/-- Panic-aware assembly of one base instruction: `none` whenever the source
would dereference a missing operand token and die; otherwise exactly the
outcome of `assembleOneIr`. -/
def assembleOneIrP (toks : List String) (labels : Labels) (pc : Nat) :
    Option (Except AssemblerError Nat) :=
  match getTokenP toks 0 with
  | none => none
  | some op =>
    match match_opcode op with
    | .error why => some (.error why)
    | .ok opcode =>
      match classifyFormat opcode with
      | none => some (.error .InternalError)
      | some format =>
        match encodeRdFieldP format toks (encode_opcode opcode) with
        | none => none
        | some (.error why) => some (.error why)
        | some (.ok ir1) =>
          match encodeRs1FieldP opcode format toks ir1 with
          | none => none
          | some (.error why) => some (.error why)
          | some (.ok ir2) =>
            match encodeRs2FieldP opcode format toks ir2 with
            | none => none
            | some (.error why) => some (.error why)
            | some (.ok ir3) =>
              encodeImmFieldP opcode format toks labels pc
                (encodeFunc7Field format toks ir3)

/-- Panic-aware expansion loop: a panic of any instruction aborts. -/
def assembleIrLoopP (irs : List (List String)) (labels : Labels) (pc : Nat) :
    Option ((Except AssemblerError (List Nat)) × Nat) :=
  match irs with
  | [] => some (.ok [], pc)
  | toks :: rest =>
    match assembleOneIrP toks labels pc with
    | none => none
    | some (.error why) => some (.error why, pc)
    | some (.ok w) =>
      match assembleIrLoopP rest labels (pc + 4) with
      | none => none
      | some (.ok ws, pc2) => some (.ok (w :: ws), pc2)
      | some (.error why, pc2) => some (.error why, pc2)

/-- Panic-aware `assemble_ir`. -/
def assemble_irP (ir_string : String) (labels : Labels) (pc : Nat) :
    Option ((Except AssemblerError (List Nat)) × Nat) :=
  let line_tokens := tokenize ir_string
  if line_tokens = [] then some (.ok [], pc)
  else if line_tokens.length > 5 then some (.error .TooManyTokensError, pc)
  else
    let line_tokens := stripLeadingLabel line_tokens
    if line_tokens = [] then some (.ok [], pc)
    else
      match transform_psuedo_ir line_tokens with
      | .error why => some (.error why, pc)
      | .ok base_instructions => assembleIrLoopP base_instructions labels pc

/-- Panic-aware line loop of `assemble_program`. -/
def assembleLinesP (lines : List String) (labels : Labels) (pc : Nat) :
    Option (Except AssemblerError (List Nat)) :=
  match lines with
  | [] => some (.ok [])
  | l :: rest =>
    match assemble_irP l labels pc with
    | none => none
    | some (.error why, _) => some (.error why)
    | some (.ok ws, pc2) =>
      match assembleLinesP rest labels pc2 with
      | none => none
      | some (.error why) => some (.error why)
      | some (.ok rest2) => some (.ok (ws ++ rest2))

/-- Panic-aware `assemble_program`: `none` when any line's assembly panics
on a missing operand token; otherwise the returned result. -/
def assemble_programP (program : String) :
    Option (Except AssemblerError (List Nat)) :=
  assembleLinesP (splitLines program) (parse_labels program) 0

/-- `getLabel` after `insertLabel`: the fresh binding shadows older ones. -/
theorem getLabel_insertLabel (m : Labels) (k v : _) (name : String) :
    getLabel (insertLabel m k v) name
      = if k = name then some v else getLabel m name := by
  by_cases h : k = name <;> simp [getLabel, insertLabel, List.find?, h]

/-- The label pass described by the spec's words for claim C10: scan the
lines with the same pc-advance discipline as `parse_labels`, returning the pc
recorded at the LAST line that defines `name`. -/
def lastLabelDefSpec : List String → Nat → String → Option Nat
  | [], _, _ => none
  | line :: rest, pc, name =>
    match tokenize line with
    | [] => lastLabelDefSpec rest pc name
    | t :: more =>
      if endsWithColon t then
        let pcNext := if more.length > 0 then pc + 4 else pc
        match lastLabelDefSpec rest pcNext name with
        | some v => some v
        | none => if stripColonSuffix t = name then some pc else none
      else lastLabelDefSpec rest (pc + 4) name

/-- The fold of `parse_labels` refines `lastLabelDefSpec`, relative to any
starting state. -/
theorem parse_labels_foldl_lastDef (lines : List String) (st : LabelPassState)
    (name : String) :
    getLabel ((lines.foldl parseLabelsStep st).labels) name
      = match lastLabelDefSpec lines st.pc name with
        | some v => some v
        | none => getLabel st.labels name := by
  induction lines generalizing st with
  | nil => simp [lastLabelDefSpec]
  | cons l rest ih =>
    simp only [List.foldl_cons]
    rw [ih]
    cases h : tokenize l with
    | nil =>
      simp only [lastLabelDefSpec, h, parseLabelsStep]
    | cons t more =>
      by_cases hc : endsWithColon t
      · cases hm : lastLabelDefSpec rest
            (if more.length > 0 then st.pc + 4 else st.pc) name with
        | some v =>
          cases more with
          | nil =>
            simp only [lastLabelDefSpec, h, hc, if_true, parseLabelsStep] at hm ⊢
            simp only [List.length_nil, gt_iff_lt, Nat.lt_irrefl, if_false] at hm ⊢
            simp [hm]
          | cons m ms =>
            simp only [lastLabelDefSpec, h, hc, if_true, parseLabelsStep] at hm ⊢
            simp only [List.length_cons, gt_iff_lt, Nat.succ_pos, if_true] at hm ⊢
            simp [hm]
        | none =>
          cases more with
          | nil =>
            simp only [lastLabelDefSpec, h, hc, if_true, parseLabelsStep] at hm ⊢
            simp only [List.length_nil, gt_iff_lt, Nat.lt_irrefl, if_false] at hm ⊢
            simp only [hm, getLabel_insertLabel]
            by_cases hn : stripColonSuffix t = name <;> simp [hn]
          | cons m ms =>
            simp only [lastLabelDefSpec, h, hc, if_true, parseLabelsStep] at hm ⊢
            simp only [List.length_cons, gt_iff_lt, Nat.succ_pos, if_true] at hm ⊢
            simp only [hm, getLabel_insertLabel]
            by_cases hn : stripColonSuffix t = name <;> simp [hn]
      · simp only [lastLabelDefSpec, h, hc, if_false, parseLabelsStep]
        simp [hc]

/-- C1: `parse_labels` builds the label table in a single forward scan with
pc initialized to 0; per line: an empty token sequence leaves the state
unchanged; a leading label token records `label ↦ pc` (colon stripped) and
advances pc by 4 exactly when further tokens follow; any other nonempty line
advances pc by 4. -/
theorem C1_parse_labels_single_scan :
    (∀ program, parse_labels program
        = ((splitLines program).foldl parseLabelsStep ⟨0, []⟩).labels)
    ∧ ∀ st line,
      (tokenize line = [] → parseLabelsStep st line = st)
      ∧ (∀ t rest, tokenize line = t :: rest → endsWithColon t = true →
          (parseLabelsStep st line).labels
              = insertLabel st.labels (stripColonSuffix t) st.pc
            ∧ ((parseLabelsStep st line).pc = st.pc + 4 ↔ rest ≠ [])
            ∧ (rest = [] → (parseLabelsStep st line).pc = st.pc))
      ∧ (∀ t rest, tokenize line = t :: rest → endsWithColon t = false →
          parseLabelsStep st line = ⟨st.pc + 4, st.labels⟩) := by
  refine ⟨fun program => rfl, fun st line => ⟨?_, ?_, ?_⟩⟩
  · intro h
    simp [parseLabelsStep, h]
  · intro t rest h hc
    cases rest with
    | nil => simp [parseLabelsStep, h, hc]
    | cons r rs => simp [parseLabelsStep, h, hc]
  · intro t rest h hc
    simp [parseLabelsStep, h, hc]

/-- Witness for C1 at concrete lines. -/
theorem C1_parse_labels_single_scan_witness :
    (parseLabelsStep ⟨8, []⟩ "foo:").labels
        = insertLabel [] (stripColonSuffix "foo:") 8
    ∧ (parseLabelsStep ⟨8, []⟩ "foo:").pc = 8
    ∧ parseLabelsStep ⟨8, []⟩ "" = ⟨8, []⟩ := by
  have h := (C1_parse_labels_single_scan.2 ⟨8, []⟩ "foo:").2.1 "foo:" []
    (by rfl) (by rfl)
  exact ⟨h.1, h.2.2 rfl, (C1_parse_labels_single_scan.2 ⟨8, []⟩ "").1 (by rfl)⟩

/-- C3: a line of more than five tokens makes `assemble_ir` fail with
`TooManyTokensError` (leaving pc unchanged), before label stripping,
pseudo-expansion or encoding, whatever the extra tokens are. -/
theorem C3_too_many_tokens (line : String) (labels : Labels) (pc : Nat)
    (h : 5 < (tokenize line).length) :
    assemble_ir line labels pc = (.error .TooManyTokensError, pc) := by
  have h1 : ¬ tokenize line = [] := by
    intro he
    rw [he] at h
    simp at h
  simp [assemble_ir, h1, h]

/-- Witness for C3: six syntactically valid tokens. -/
theorem C3_too_many_tokens_witness :
    assemble_ir "add x1 x2 x3 x4 x5" [] 7 = (.error .TooManyTokensError, 7) :=
  C3_too_many_tokens "add x1 x2 x3 x4 x5" [] 7 (by decide)

/-- C4: operand token positions are selected by opcode, not only by format:
loads take rs1 from token 3 and the immediate from token 2;
arithmetic-immediate and jump-register instructions take rs1 from token 2 and
the immediate from token 3; stores take rs2 from token 1; branches take rs1
from token 1, rs2 from token 2 and the immediate from token 3. -/
theorem C4_operand_positions_by_opcode :
    rs1TokenIndex OPCODE_LOAD = 3
    ∧ iImmTokenIndex OPCODE_LOAD = 2
    ∧ rs1TokenIndex OPCODE_ARITHMETIC_IMM = 2
    ∧ iImmTokenIndex OPCODE_ARITHMETIC_IMM = 3
    ∧ rs1TokenIndex OPCODE_JALR = 2
    ∧ iImmTokenIndex OPCODE_JALR = 3
    ∧ rs2TokenIndex OPCODE_STORE = 1
    ∧ rs1TokenIndex OPCODE_BRANCH = 1
    ∧ rs2TokenIndex OPCODE_BRANCH = 2
    ∧ (∀ toks labels pc ir,
        encodeImmField OPCODE_BRANCH .Btype toks labels pc ir
          = match parse_imm (tokenAt toks 3) labels pc with
            | .error why => .error why
            | .ok imm => .ok (ir ||| encode_b_imm imm)) := by
  refine ⟨by decide, by decide, by decide, by decide, by decide, by decide,
    by decide, by decide, by decide, fun toks labels pc ir => rfl⟩

/-- C10: `parse_labels` cannot fail, and its table maps every label name to
the pc of its last (latest in source order) definition, as computed by the
spec-level scan `lastLabelDefSpec`; on a program defining `a` twice, lookup
returns the second definition's address. -/
theorem C10_duplicate_label_last_definition_wins :
    (∀ program name,
        getLabel (parse_labels program) name
          = lastLabelDefSpec (splitLines program) 0 name)
    ∧ getLabel (parse_labels "a:\nfoo\na:\nbar") "a" = some 4 := by
  constructor
  · intro program name
    have h := parse_labels_foldl_lastDef (splitLines program) ⟨0, []⟩ name
    have h0 : getLabel ([] : Labels) name = none := by simp [getLabel]
    simp only [parse_labels]
    rw [h]
    cases lastLabelDefSpec (splitLines program) 0 name <;> simp [h0]
  · rfl

/-- `match_opcode` can only fail with `UnknownMnemonicError`. -/
theorem match_opcode_error (s : String) (e : AssemblerError)
    (h : match_opcode s = .error e) : e = .UnknownMnemonicError := by
  unfold match_opcode at h
  cases hf : opcodeTable.find? (fun p => p.1 = s) <;> rw [hf] at h <;>
    simp_all

/-- `match_register` can only fail with `UnknownRegisterError`. -/
theorem match_register_error (s : String) (e : AssemblerError)
    (h : match_register s = .error e) : e = .UnknownRegisterError := by
  unfold match_register at h
  cases hf : registerTable.find? (fun p => p.1 = s) <;> rw [hf] at h <;>
    simp_all

/-- `parse_imm` can only fail with `UndefinedLabelError`. -/
theorem parse_imm_error (t : String) (labels : Labels) (pc : Nat)
    (e : AssemblerError) (h : parse_imm t labels pc = .error e) :
    e = .UndefinedLabelError := by
  unfold parse_imm at h
  cases h1 : intLiteral t <;> rw [h1] at h
  · cases h2 : getLabel labels t <;> rw [h2] at h <;> simp_all
  · simp_all

/-- Every opcode in the mnemonic table is classified by `classifyFormat`. -/
theorem opcodeTable_classified :
    ∀ p ∈ opcodeTable, (classifyFormat p.2).isSome = true := by decide

/-- A successfully matched opcode is always classified by `classifyFormat`. -/
theorem match_opcode_ok_classify (s : String) (opcode : Nat)
    (h : match_opcode s = .ok opcode) :
    (classifyFormat opcode).isSome = true := by
  unfold match_opcode at h
  cases hf : opcodeTable.find? (fun p => p.1 = s) with
  | none => rw [hf] at h; simp_all
  | some p =>
    rw [hf] at h
    have hm := opcodeTable_classified p (List.mem_of_find?_eq_some hf)
    simp only [Except.ok.injEq] at h
    rw [← h]
    exact hm

/-- The rd stage can only fail with `UnknownRegisterError`. -/
theorem encodeRdField_error (format : InstructionFormat) (toks : List String)
    (ir : Nat) (e : AssemblerError) (h : encodeRdField format toks ir = .error e) :
    e = .UnknownRegisterError := by
  unfold encodeRdField at h
  split at h
  · cases hr : match_register (tokenAt toks 1) <;> rw [hr] at h <;> simp_all
    exact match_register_error _ _ hr
  · simp_all

/-- The rs1/func3 stage can only fail with `UnknownRegisterError`. -/
theorem encodeRs1Field_error (opcode : Nat) (format : InstructionFormat)
    (toks : List String) (ir : Nat) (e : AssemblerError)
    (h : encodeRs1Field opcode format toks ir = .error e) :
    e = .UnknownRegisterError := by
  unfold encodeRs1Field at h
  split at h
  · cases hr : match_register (tokenAt toks (rs1TokenIndex opcode)) <;>
      rw [hr] at h <;> simp_all
    exact match_register_error _ _ hr
  · simp_all

/-- The rs2 stage can only fail with `UnknownRegisterError`. -/
theorem encodeRs2Field_error (opcode : Nat) (format : InstructionFormat)
    (toks : List String) (ir : Nat) (e : AssemblerError)
    (h : encodeRs2Field opcode format toks ir = .error e) :
    e = .UnknownRegisterError := by
  unfold encodeRs2Field at h
  split at h
  · cases hr : match_register (tokenAt toks (rs2TokenIndex opcode)) <;>
      rw [hr] at h <;> simp_all
    exact match_register_error _ _ hr
  · simp_all

/-- The immediate stage can only fail with `UndefinedLabelError`. -/
theorem encodeImmField_error (opcode : Nat) (format : InstructionFormat)
    (toks : List String) (labels : Labels) (pc ir : Nat) (e : AssemblerError)
    (h : encodeImmField opcode format toks labels pc ir = .error e) :
    e = .UndefinedLabelError := by
  unfold encodeImmField at h
  cases format <;> simp only [] at h
  case Itype =>
    cases hi : parse_imm (tokenAt toks (iImmTokenIndex opcode)) labels pc <;>
      rw [hi] at h <;> simp_all
    exact parse_imm_error _ _ _ _ hi
  case Utype =>
    cases hi : parse_imm (tokenAt toks 2) labels pc <;> rw [hi] at h <;> simp_all
    exact parse_imm_error _ _ _ _ hi
  case Jtype =>
    cases hi : parse_imm (tokenAt toks 2) labels pc <;> rw [hi] at h <;> simp_all
    exact parse_imm_error _ _ _ _ hi
  case Btype =>
    cases hi : parse_imm (tokenAt toks 3) labels pc <;> rw [hi] at h <;> simp_all
    exact parse_imm_error _ _ _ _ hi
  case Stype =>
    cases hi : parse_imm (tokenAt toks 2) labels pc <;> rw [hi] at h <;> simp_all
    exact parse_imm_error _ _ _ _ hi
  case Rtype => simp_all

/-- `assembleOneIr` fails only with a mnemonic, register or label error. -/
theorem assembleOneIr_error (toks : List String) (labels : Labels) (pc : Nat)
    (e : AssemblerError) (h : assembleOneIr toks labels pc = .error e) :
    e = .UnknownMnemonicError ∨ e = .UnknownRegisterError ∨
      e = .UndefinedLabelError := by
  unfold assembleOneIr at h
  split at h
  next why ho =>
    simp only [Except.error.injEq] at h
    exact Or.inl (h ▸ match_opcode_error _ _ ho)
  next opcode ho =>
    split at h
    next hc =>
      have hs := match_opcode_ok_classify _ _ ho
      rw [hc] at hs
      simp at hs
    next format hc =>
      split at h
      next why h1 =>
        simp only [Except.error.injEq] at h
        exact Or.inr (Or.inl (h ▸ encodeRdField_error _ _ _ _ h1))
      next ir1 h1 =>
        split at h
        next why h2 =>
          simp only [Except.error.injEq] at h
          exact Or.inr (Or.inl (h ▸ encodeRs1Field_error _ _ _ _ _ h2))
        next ir2 h2 =>
          split at h
          next why h3 =>
            simp only [Except.error.injEq] at h
            exact Or.inr (Or.inl (h ▸ encodeRs2Field_error _ _ _ _ _ h3))
          next ir3 h3 =>
            exact Or.inr (Or.inr (encodeImmField_error _ _ _ _ _ _ _ h))

/-- `transform_psuedo_ir` never fails. -/
theorem transform_psuedo_ir_ok (tokens : List String) :
    ∃ irs, transform_psuedo_ir tokens = .ok irs := by
  unfold transform_psuedo_ir
  cases pseudoExpand tokens <;> simp

/-- An error of the expansion loop comes from some single instruction. -/
theorem assembleIrLoop_error (irs : List (List String)) (labels : Labels)
    (pc : Nat) (e : AssemblerError) (pcF : Nat)
    (h : assembleIrLoop irs labels pc = (.error e, pcF)) :
    ∃ toks pc0, assembleOneIr toks labels pc0 = .error e := by
  induction irs generalizing pc with
  | nil => simp [assembleIrLoop] at h
  | cons t rest ih =>
    unfold assembleIrLoop at h
    cases h1 : assembleOneIr t labels pc with
    | error why =>
      rw [h1] at h
      simp only [Prod.mk.injEq, Except.error.injEq] at h
      exact ⟨t, pc, h.1 ▸ h1⟩
    | ok w =>
      rw [h1] at h
      cases h2 : assembleIrLoop rest labels (pc + 4) with
      | mk r pc2 =>
        rw [h2] at h
        cases r with
        | ok ws => simp at h
        | error why =>
          simp only [Prod.mk.injEq, Except.error.injEq] at h
          obtain ⟨he, hpc⟩ := h
          subst he
          subst hpc
          exact ih (pc + 4) h2

/-- `assemble_ir` fails only with a token-count, mnemonic, register or label
error. -/
theorem assemble_ir_error_classes (line : String) (labels : Labels) (pc : Nat)
    (e : AssemblerError) (h : (assemble_ir line labels pc).1 = .error e) :
    e = .TooManyTokensError ∨ e = .UnknownMnemonicError ∨
      e = .UnknownRegisterError ∨ e = .UndefinedLabelError := by
  by_cases h1 : tokenize line = []
  · simp [assemble_ir, h1] at h
  · by_cases h2 : 5 < (tokenize line).length
    · simp [assemble_ir, h1, h2] at h
      exact Or.inl h.symm
    · by_cases h3 : stripLeadingLabel (tokenize line) = []
      · simp [assemble_ir, h1, h2, h3] at h
      · obtain ⟨irs, ht⟩ := transform_psuedo_ir_ok (stripLeadingLabel (tokenize line))
        simp only [assemble_ir, if_neg h1, if_neg h2, if_neg h3, ht] at h
        cases hl : assembleIrLoop irs labels pc with
        | mk r pcF =>
          rw [hl] at h
          cases r with
          | ok ws => simp at h
          | error why =>
            simp only [Except.error.injEq] at h
            obtain ⟨toks, pc0, hone⟩ := assembleIrLoop_error _ _ _ _ _ hl
            rcases assembleOneIr_error _ _ _ _ (h ▸ hone) with h4 | h4 | h4
            · exact Or.inr (Or.inl h4)
            · exact Or.inr (Or.inr (Or.inl h4))
            · exact Or.inr (Or.inr (Or.inr h4))

/-- C9: format classification is total over the matched opcode set: every
opcode `match_opcode` can return is classified to one of the six formats, and
the `unreachable!()` arm (modelled as `InternalError`) is never executed. -/
theorem C9_format_classification_total :
    (∀ s opcode, match_opcode s = .ok opcode →
        ∃ format, classifyFormat opcode = some format)
    ∧ ∀ toks labels pc, assembleOneIr toks labels pc ≠ .error .InternalError := by
  constructor
  · intro s opcode h
    have hs := match_opcode_ok_classify s opcode h
    cases hc : classifyFormat opcode with
    | none => rw [hc] at hs; simp at hs
    | some format => exact ⟨format, rfl⟩
  · intro toks labels pc h
    rcases assembleOneIr_error _ _ _ _ h with h1 | h1 | h1 <;>
      exact AssemblerError.noConfusion h1

/-- Witness for C9 at the `addi` mnemonic and a concrete instruction. -/
theorem C9_format_classification_total_witness :
    (∃ format, classifyFormat 0x13 = some format)
    ∧ assembleOneIr ["addi", "x1", "x0", "5"] [] 0 ≠ .error .InternalError :=
  ⟨C9_format_classification_total.1 "addi" 0x13 (by rfl),
   C9_format_classification_total.2 ["addi", "x1", "x0", "5"] [] 0⟩

/-- Counterexample to C2 as stated: at the 12-bit signed boundary, an I-type
immediate of 2048 does NOT make `assemble_ir` return `ImmediateRangeError`;
it assembles successfully (to the masked word 0x80000093). -/
theorem C2_counterexample_no_range_error :
    (assemble_ir "addi x1 x0 2048" [] 0).1 = .ok [0x80000093]
    ∧ (assemble_ir "addi x1 x0 2048" [] 0).1 ≠ .error .ImmediateRangeError := by
  constructor
  · rfl
  · intro h
    rw [show (assemble_ir "addi x1 x0 2048" [] 0).1 = .ok [0x80000093] from rfl]
      at h
    exact Except.noConfusion h

/-- C2 (amended): an I-type immediate of exactly 2047 encodes without error;
2048 also encodes without error and is silently truncated by bit masking
(it encodes to the same word as -2048); out-of-range S-, B-, U- and J-type
immediates are likewise masked, and `assemble_ir` never returns
`ImmediateRangeError` on any input. -/
theorem C2_immediates_truncated_not_rejected :
    (assemble_ir "addi x1 x0 2047" [] 0).1 = .ok [0x7ff00093]
    ∧ (assemble_ir "addi x1 x0 2048" [] 0).1
        = (assemble_ir "addi x1 x0 -2048" [] 0).1
    ∧ (assemble_ir "sw x5 x6 x9" [("x6", 4096)] 0).1
        = (assemble_ir "sw x5 x6 x9" [("x6", 0)] 0).1
    ∧ (assemble_ir "beq x1 x2 8192" [] 0).1 = (assemble_ir "beq x1 x2 0" [] 0).1
    ∧ (assemble_ir "jal x1 2097152" [] 0).1 = (assemble_ir "jal x1 0" [] 0).1
    ∧ (assemble_ir "lui x1 0x100000000" [] 0).1
        = (assemble_ir "lui x1 0" [] 0).1
    ∧ ∀ line labels pc,
        (assemble_ir line labels pc).1 ≠ .error .ImmediateRangeError := by
  refine ⟨rfl, rfl, rfl, rfl, rfl, rfl, ?_⟩
  intro line labels pc h
  rcases assemble_ir_error_classes _ _ _ _ h with h1 | h1 | h1 | h1 <;>
    exact AssemblerError.noConfusion h1

/-- Witness for C2 (amended) at a concrete line with an oversized store
immediate. -/
theorem C2_immediates_truncated_not_rejected_witness :
    (assemble_ir "sh x3 x4 x9" [("x4", 8192)] 8).1
      ≠ .error .ImmediateRangeError :=
  C2_immediates_truncated_not_rejected.2.2.2.2.2.2 "sh x3 x4 x9"
    [("x4", 8192)] 8

/-- pc bookkeeping of the expansion loop: on success pc advances by 4 per
emitted word; on failure pc has advanced by 4 for each word emitted before
the failing instruction and is otherwise untouched. -/
theorem assembleIrLoop_pc (irs : List (List String)) (labels : Labels)
    (pc : Nat) :
    (∀ ws pcF, assembleIrLoop irs labels pc = (.ok ws, pcF) →
        pcF = pc + 4 * ws.length)
    ∧ (∀ e pcF, assembleIrLoop irs labels pc = (.error e, pcF) →
        ∃ pre toks post wsPre,
          irs = pre ++ toks :: post
          ∧ assembleIrLoop pre labels pc = (.ok wsPre, pcF)
          ∧ pcF = pc + 4 * wsPre.length
          ∧ assembleOneIr toks labels pcF = .error e) := by
  induction irs generalizing pc with
  | nil =>
    constructor
    · intro ws pcF h
      simp only [assembleIrLoop, Prod.mk.injEq, Except.ok.injEq] at h
      obtain ⟨hw, hp⟩ := h
      subst hw
      subst hp
      simp
    · intro e pcF h
      simp [assembleIrLoop] at h
  | cons t rest ih =>
    constructor
    · intro ws pcF h
      unfold assembleIrLoop at h
      cases h1 : assembleOneIr t labels pc with
      | error why => rw [h1] at h; simp at h
      | ok w =>
        rw [h1] at h
        cases h2 : assembleIrLoop rest labels (pc + 4) with
        | mk r pc2 =>
          rw [h2] at h
          cases r with
          | error why => simp at h
          | ok ws2 =>
            simp only [Prod.mk.injEq, Except.ok.injEq] at h
            obtain ⟨hw, hp⟩ := h
            subst hw
            subst hp
            have := (ih (pc + 4)).1 ws2 pc2 h2
            subst this
            simp only [List.length_cons]
            ring
    · intro e pcF h
      unfold assembleIrLoop at h
      cases h1 : assembleOneIr t labels pc with
      | error why =>
        rw [h1] at h
        simp only [Prod.mk.injEq, Except.error.injEq] at h
        obtain ⟨he, hp⟩ := h
        subst he
        subst hp
        exact ⟨[], t, rest, [], rfl, by simp [assembleIrLoop], by simp, h1⟩
      | ok w =>
        rw [h1] at h
        cases h2 : assembleIrLoop rest labels (pc + 4) with
        | mk r pc2 =>
          rw [h2] at h
          cases r with
          | ok ws2 => simp at h
          | error why =>
            simp only [Prod.mk.injEq, Except.error.injEq] at h
            obtain ⟨he, hp⟩ := h
            subst he
            subst hp
            obtain ⟨pre, toks, post, wsPre, hsplit, hloop, hpcF, hfail⟩ :=
              (ih (pc + 4)).2 _ pc2 h2
            refine ⟨t :: pre, toks, post, w :: wsPre, by rw [hsplit]; rfl,
              by simp [assembleIrLoop, h1, hloop], ?_, hfail⟩
            simp only [List.length_cons]
            omega

/-- C8: pc bookkeeping of `assemble_ir`: pc never decreases; an empty or
label-only token sequence leaves pc unchanged; a successful line advances pc
by exactly 4 per emitted (post-expansion) word; on an error either the error
precedes the loop (`TooManyTokensError`, pc unchanged) or the final pc
accounts for exactly the words emitted before the failing instruction and
the failing instruction was evaluated at that very pc: the error return
never modifies pc for the field that failed. -/
theorem C8_pc_advance_discipline :
    ∀ line labels pc,
      pc ≤ (assemble_ir line labels pc).2
      ∧ (stripLeadingLabel (tokenize line) = [] →
          (assemble_ir line labels pc).2 = pc)
      ∧ (∀ ws, (assemble_ir line labels pc).1 = .ok ws →
          (assemble_ir line labels pc).2 = pc + 4 * ws.length)
      ∧ (∀ e, (assemble_ir line labels pc).1 = .error e →
          ((assemble_ir line labels pc).2 = pc ∧ e = .TooManyTokensError)
          ∨ ∃ irs pre toks post wsPre,
              transform_psuedo_ir (stripLeadingLabel (tokenize line))
                  = .ok irs
              ∧ irs = pre ++ toks :: post
              ∧ assembleIrLoop pre labels pc
                  = (.ok wsPre, (assemble_ir line labels pc).2)
              ∧ (assemble_ir line labels pc).2 = pc + 4 * wsPre.length
              ∧ assembleOneIr toks labels ((assemble_ir line labels pc).2)
                  = .error e) := by
  intro line labels pc
  by_cases h1 : tokenize line = []
  · refine ⟨?_, ?_, ?_, ?_⟩ <;> simp [assemble_ir, h1]
  · by_cases h2 : 5 < (tokenize line).length
    · refine ⟨?_, ?_, ?_, ?_⟩
      · simp [assemble_ir, h1, h2]
      · simp [assemble_ir, h1, h2]
      · simp [assemble_ir, h1, h2]
      · intro e h
        simp only [assemble_ir, if_neg h1, if_pos h2] at h ⊢
        simp only [Except.error.injEq] at h
        exact Or.inl ⟨trivial, h.symm⟩
    · by_cases h3 : stripLeadingLabel (tokenize line) = []
      · refine ⟨?_, ?_, ?_, ?_⟩ <;> simp [assemble_ir, h1, h2, h3]
      · obtain ⟨irs, ht⟩ :=
          transform_psuedo_ir_ok (stripLeadingLabel (tokenize line))
        have hred : assemble_ir line labels pc = assembleIrLoop irs labels pc := by
          simp [assemble_ir, h1, h2, h3, ht]
        rw [hred]
        cases hl : assembleIrLoop irs labels pc with
        | mk r pcF =>
          refine ⟨?_, ?_, ?_, ?_⟩
          · cases r with
            | ok ws =>
              have := (assembleIrLoop_pc irs labels pc).1 ws pcF hl
              simp only []
              omega
            | error e =>
              obtain ⟨pre, toks, post, wsPre, _, _, hpc, _⟩ :=
                (assembleIrLoop_pc irs labels pc).2 e pcF hl
              simp only []
              omega
          · intro hs
            exact absurd hs h3
          · intro ws h
            simp only [] at h
            subst h
            exact (assembleIrLoop_pc irs labels pc).1 _ pcF hl
          · intro e h
            simp only [] at h
            subst h
            obtain ⟨pre, toks, post, wsPre, hsplit, hloop, hpc, hfail⟩ :=
              (assembleIrLoop_pc irs labels pc).2 _ pcF hl
            exact Or.inr ⟨irs, pre, toks, post, wsPre, ht, hsplit, hloop,
              hpc, hfail⟩

/-- Witness for C8 at concrete lines: a label-only line, a
pseudo-instruction line, and a line whose rs2 register fails: there the
final pc equals the starting pc (no word was emitted) and the failing
instruction was evaluated at that unchanged pc. -/
theorem C8_pc_advance_discipline_witness :
    (assemble_ir "loop:" [] 12).2 = 12
    ∧ (assemble_ir "nop" [] 12).2 = 12 + 4 * 1
    ∧ ((assemble_ir "add x1 x2 q3" [] 12).2 = 12
        ∧ assembleOneIr ["add", "x1", "x2", "q3"] [] 12
            = .error .UnknownRegisterError) := by
  refine ⟨(C8_pc_advance_discipline "loop:" [] 12).2.1 (by rfl), ?_, ?_⟩
  · have h := (C8_pc_advance_discipline "nop" [] 12).2.2.1 [0x00000013] (by rfl)
    simpa using h
  · have h := (C8_pc_advance_discipline "add x1 x2 q3" [] 12).2.2.2
      .UnknownRegisterError (by rfl)
    rcases h with ⟨hpc, habs⟩ | ⟨irs, pre, toks, post, wsPre, ht, hsplit,
      hloop, hpc, hfail⟩
    · exact absurd habs (by decide)
    · have ht0 : transform_psuedo_ir
          (stripLeadingLabel (tokenize "add x1 x2 q3"))
            = .ok [["add", "x1", "x2", "q3"]] := rfl
      rw [ht0] at ht
      have hirs := Except.ok.inj ht
      subst hirs
      cases pre with
      | cons p ps =>
        exfalso
        have hlen := congrArg List.length hsplit
        simp [List.length_append] at hlen
      | nil =>
        simp only [List.nil_append] at hsplit
        injection hsplit with htoks hpost
        subst htoks
        simp only [assembleIrLoop, Prod.mk.injEq, Except.ok.injEq] at hloop
        obtain ⟨hws, hpc12⟩ := hloop
        refine ⟨hpc12.symm, ?_⟩
        rw [← hpc12] at hfail
        exact hfail

/-- Spec-level description for C6: every line assembles, in order, under the
pc threaded through the successes, producing the listed word groups. -/
inductive LinesAssemble (labels : Labels) :
    List String → Nat → List (List Nat) → Prop where
  | nil : ∀ pc, LinesAssemble labels [] pc []
  | cons : ∀ l rest pc pcNext ws wss,
      assemble_ir l labels pc = (.ok ws, pcNext) →
      LinesAssemble labels rest pcNext wss →
      LinesAssemble labels (l :: rest) pc (ws :: wss)

/-- Spec-level description for C6: some prefix of the lines assembles and the
next line fails with error `e` (the first failing line). -/
inductive FirstLineFails (labels : Labels) :
    List String → Nat → AssemblerError → Prop where
  | here : ∀ l rest pc e pcF,
      (assemble_ir l labels pc).1 = .error e →
      (assemble_ir l labels pc).2 = pcF →
      FirstLineFails labels (l :: rest) pc e
  | there : ∀ l rest pc pcNext ws e,
      assemble_ir l labels pc = (.ok ws, pcNext) →
      FirstLineFails labels rest pcNext e →
      FirstLineFails labels (l :: rest) pc e

/-- The line loop of `assemble_program` is all-or-nothing: every line
assembles and the output is their concatenation, or the first failing line's
error is the result. -/
theorem assembleLines_all_or_nothing (lines : List String) (labels : Labels)
    (pc : Nat) :
    (∃ wss, LinesAssemble labels lines pc wss
        ∧ assembleLines lines labels pc = .ok wss.flatten)
    ∨ (∃ e, FirstLineFails labels lines pc e
        ∧ assembleLines lines labels pc = .error e) := by
  induction lines generalizing pc with
  | nil => exact Or.inl ⟨[], LinesAssemble.nil pc, by simp [assembleLines]⟩
  | cons l rest ih =>
    cases h1 : assemble_ir l labels pc with
    | mk r pcNext =>
      cases r with
      | error e =>
        refine Or.inr ⟨e, FirstLineFails.here l rest pc e pcNext
          (by rw [h1]) (by rw [h1]), ?_⟩
        simp [assembleLines, h1]
      | ok ws =>
        rcases ih pcNext with ⟨wss, ha, heq⟩ | ⟨e, hf, heq⟩
        · refine Or.inl ⟨ws :: wss,
            LinesAssemble.cons l rest pc pcNext ws wss h1 ha, ?_⟩
          simp [assembleLines, h1, heq]
        · refine Or.inr ⟨e,
            FirstLineFails.there l rest pc pcNext ws e h1 hf, ?_⟩
          simp [assembleLines, h1, heq]

/-- On a non-panicking token access, the total model agrees with the
faithful one. -/
theorem getTokenP_tokenAt (toks : List String) (i : Nat) (t : String)
    (h : getTokenP toks i = some t) : tokenAt toks i = t := by
  unfold getTokenP at h
  unfold tokenAt
  rw [h]
  rfl

/-- On a non-panicking execution, the rd stages agree. -/
theorem encodeRdFieldP_agree (format : InstructionFormat)
    (toks : List String) (ir : Nat) (r : Except AssemblerError Nat)
    (h : encodeRdFieldP format toks ir = some r) :
    encodeRdField format toks ir = r := by
  by_cases hu : usesRd format
  · simp only [encodeRdFieldP, hu, if_true] at h
    simp only [encodeRdField, hu, if_true]
    cases hg : getTokenP toks 1 with
    | none => rw [hg] at h; exact Option.noConfusion h
    | some t =>
      rw [hg] at h
      dsimp only at h
      rw [getTokenP_tokenAt _ _ _ hg]
      cases hr : match_register t with
      | error why => rw [hr] at h; exact Option.some.inj h
      | ok rd => rw [hr] at h; exact Option.some.inj h
  · simp only [encodeRdFieldP, if_neg hu] at h
    simp only [encodeRdField, if_neg hu]
    exact Option.some.inj h

/-- On a non-panicking execution, the rs1/func3 stages agree. -/
theorem encodeRs1FieldP_agree (opcode : Nat) (format : InstructionFormat)
    (toks : List String) (ir : Nat) (r : Except AssemblerError Nat)
    (h : encodeRs1FieldP opcode format toks ir = some r) :
    encodeRs1Field opcode format toks ir = r := by
  by_cases hu : usesRs1 format
  · simp only [encodeRs1FieldP, hu, if_true] at h
    simp only [encodeRs1Field, hu, if_true]
    cases hg : getTokenP toks (rs1TokenIndex opcode) with
    | none => rw [hg] at h; exact Option.noConfusion h
    | some t =>
      rw [hg] at h
      dsimp only at h
      rw [getTokenP_tokenAt _ _ _ hg]
      cases hr : match_register t with
      | error why => rw [hr] at h; exact Option.some.inj h
      | ok rs1 => rw [hr] at h; exact Option.some.inj h
  · simp only [encodeRs1FieldP, if_neg hu] at h
    simp only [encodeRs1Field, if_neg hu]
    exact Option.some.inj h

/-- On a non-panicking execution, the rs2 stages agree. -/
theorem encodeRs2FieldP_agree (opcode : Nat) (format : InstructionFormat)
    (toks : List String) (ir : Nat) (r : Except AssemblerError Nat)
    (h : encodeRs2FieldP opcode format toks ir = some r) :
    encodeRs2Field opcode format toks ir = r := by
  by_cases hu : usesRs2 format
  · simp only [encodeRs2FieldP, hu, if_true] at h
    simp only [encodeRs2Field, hu, if_true]
    cases hg : getTokenP toks (rs2TokenIndex opcode) with
    | none => rw [hg] at h; exact Option.noConfusion h
    | some t =>
      rw [hg] at h
      dsimp only at h
      rw [getTokenP_tokenAt _ _ _ hg]
      cases hr : match_register t with
      | error why => rw [hr] at h; exact Option.some.inj h
      | ok rs2 => rw [hr] at h; exact Option.some.inj h
  · simp only [encodeRs2FieldP, if_neg hu] at h
    simp only [encodeRs2Field, if_neg hu]
    exact Option.some.inj h

/-- On a non-panicking execution, the immediate stages agree. -/
theorem encodeImmFieldP_agree (opcode : Nat) (format : InstructionFormat)
    (toks : List String) (labels : Labels) (pc ir : Nat)
    (r : Except AssemblerError Nat)
    (h : encodeImmFieldP opcode format toks labels pc ir = some r) :
    encodeImmField opcode format toks labels pc ir = r := by
  cases format <;> simp only [encodeImmFieldP] at h <;>
    simp only [encodeImmField]
  case Itype =>
    cases hg : getTokenP toks (iImmTokenIndex opcode) with
    | none => rw [hg] at h; exact Option.noConfusion h
    | some t =>
      rw [hg] at h
      dsimp only at h
      rw [getTokenP_tokenAt _ _ _ hg]
      cases hi : parse_imm t labels pc with
      | error why => rw [hi] at h; exact Option.some.inj h
      | ok imm => rw [hi] at h; exact Option.some.inj h
  case Utype =>
    cases hg : getTokenP toks 2 with
    | none => rw [hg] at h; exact Option.noConfusion h
    | some t =>
      rw [hg] at h
      dsimp only at h
      rw [getTokenP_tokenAt _ _ _ hg]
      cases hi : parse_imm t labels pc with
      | error why => rw [hi] at h; exact Option.some.inj h
      | ok imm => rw [hi] at h; exact Option.some.inj h
  case Jtype =>
    cases hg : getTokenP toks 2 with
    | none => rw [hg] at h; exact Option.noConfusion h
    | some t =>
      rw [hg] at h
      dsimp only at h
      rw [getTokenP_tokenAt _ _ _ hg]
      cases hi : parse_imm t labels pc with
      | error why => rw [hi] at h; exact Option.some.inj h
      | ok imm => rw [hi] at h; exact Option.some.inj h
  case Btype =>
    cases hg : getTokenP toks 3 with
    | none => rw [hg] at h; exact Option.noConfusion h
    | some t =>
      rw [hg] at h
      dsimp only at h
      rw [getTokenP_tokenAt _ _ _ hg]
      cases hi : parse_imm t labels pc with
      | error why => rw [hi] at h; exact Option.some.inj h
      | ok imm => rw [hi] at h; exact Option.some.inj h
  case Stype =>
    cases hg : getTokenP toks 2 with
    | none => rw [hg] at h; exact Option.noConfusion h
    | some t =>
      rw [hg] at h
      dsimp only at h
      rw [getTokenP_tokenAt _ _ _ hg]
      cases hi : parse_imm t labels pc with
      | error why => rw [hi] at h; exact Option.some.inj h
      | ok imm => rw [hi] at h; exact Option.some.inj h
  case Rtype => exact Option.some.inj h

/-- On a non-panicking execution, the per-instruction assemblers agree. -/
theorem assembleOneIrP_agree (toks : List String) (labels : Labels)
    (pc : Nat) (r : Except AssemblerError Nat)
    (h : assembleOneIrP toks labels pc = some r) :
    assembleOneIr toks labels pc = r := by
  unfold assembleOneIrP at h
  unfold assembleOneIr
  cases hg : getTokenP toks 0 with
  | none => rw [hg] at h; exact Option.noConfusion h
  | some op =>
    rw [hg] at h
    dsimp only at h
    rw [getTokenP_tokenAt _ _ _ hg]
    cases ho : match_opcode op with
    | error why =>
      rw [ho] at h
      exact Option.some.inj h
    | ok opcode =>
      rw [ho] at h
      dsimp only at h
      dsimp only
      cases hc : classifyFormat opcode with
      | none =>
        rw [hc] at h
        exact Option.some.inj h
      | some format =>
        rw [hc] at h
        dsimp only at h
        dsimp only
        cases h1 : encodeRdFieldP format toks (encode_opcode opcode) with
        | none => rw [h1] at h; exact Option.noConfusion h
        | some v1 =>
          rw [h1] at h
          rw [encodeRdFieldP_agree _ _ _ _ h1]
          cases v1 with
          | error why =>
            dsimp only at h
            exact Option.some.inj h
          | ok ir1 =>
            dsimp only at h
            dsimp only
            cases h2 : encodeRs1FieldP opcode format toks ir1 with
            | none => rw [h2] at h; exact Option.noConfusion h
            | some v2 =>
              rw [h2] at h
              rw [encodeRs1FieldP_agree _ _ _ _ _ h2]
              cases v2 with
              | error why =>
                dsimp only at h
                exact Option.some.inj h
              | ok ir2 =>
                dsimp only at h
                dsimp only
                cases h3 : encodeRs2FieldP opcode format toks ir2 with
                | none => rw [h3] at h; exact Option.noConfusion h
                | some v3 =>
                  rw [h3] at h
                  rw [encodeRs2FieldP_agree _ _ _ _ _ h3]
                  cases v3 with
                  | error why =>
                    dsimp only at h
                    exact Option.some.inj h
                  | ok ir3 =>
                    dsimp only at h
                    dsimp only
                    exact encodeImmFieldP_agree _ _ _ _ _ _ _ h

/-- On a non-panicking execution, the expansion loops agree. -/
theorem assembleIrLoopP_agree (irs : List (List String)) (labels : Labels)
    (pc : Nat) (r : Except AssemblerError (List Nat)) (pcF : Nat)
    (h : assembleIrLoopP irs labels pc = some (r, pcF)) :
    assembleIrLoop irs labels pc = (r, pcF) := by
  induction irs generalizing pc r pcF with
  | nil =>
    simp only [assembleIrLoopP] at h
    simp only [assembleIrLoop]
    exact Option.some.inj h
  | cons t rest ih =>
    unfold assembleIrLoopP at h
    unfold assembleIrLoop
    cases h1 : assembleOneIrP t labels pc with
    | none => rw [h1] at h; exact Option.noConfusion h
    | some v =>
      rw [h1] at h
      rw [assembleOneIrP_agree t labels pc v h1]
      cases v with
      | error why =>
        dsimp only at h
        exact Option.some.inj h
      | ok w =>
        dsimp only at h
        dsimp only
        cases h2 : assembleIrLoopP rest labels (pc + 4) with
        | none => rw [h2] at h; exact Option.noConfusion h
        | some p2 =>
          obtain ⟨r2, pc2⟩ := p2
          rw [h2] at h
          rw [ih (pc + 4) r2 pc2 h2]
          cases r2 with
          | ok ws =>
            dsimp only at h
            exact Option.some.inj h
          | error why =>
            dsimp only at h
            exact Option.some.inj h

/-- On a non-panicking execution, the per-line assemblers agree. -/
theorem assemble_irP_agree (line : String) (labels : Labels) (pc : Nat)
    (r : Except AssemblerError (List Nat)) (pcF : Nat)
    (h : assemble_irP line labels pc = some (r, pcF)) :
    assemble_ir line labels pc = (r, pcF) := by
  simp only [assemble_irP] at h
  simp only [assemble_ir]
  split at h
  next h1 =>
    rw [if_pos h1]
    exact Option.some.inj h
  next h1 =>
    rw [if_neg h1]
    split at h
    next h2 =>
      rw [if_pos h2]
      exact Option.some.inj h
    next h2 =>
      rw [if_neg h2]
      split at h
      next h3 =>
        rw [if_pos h3]
        exact Option.some.inj h
      next h3 =>
        rw [if_neg h3]
        split at h
        next why ht => exact Option.some.inj h
        next irs ht => exact assembleIrLoopP_agree _ _ _ _ _ h

/-- On a non-panicking execution, the line loops agree. -/
theorem assembleLinesP_agree (lines : List String) (labels : Labels)
    (pc : Nat) (r : Except AssemblerError (List Nat))
    (h : assembleLinesP lines labels pc = some r) :
    assembleLines lines labels pc = r := by
  induction lines generalizing pc r with
  | nil =>
    simp only [assembleLinesP] at h
    simp only [assembleLines]
    exact Option.some.inj h
  | cons l rest ih =>
    unfold assembleLinesP at h
    unfold assembleLines
    cases h1 : assemble_irP l labels pc with
    | none => rw [h1] at h; exact Option.noConfusion h
    | some p =>
      obtain ⟨r1, pc1⟩ := p
      rw [h1] at h
      rw [assemble_irP_agree l labels pc r1 pc1 h1]
      cases r1 with
      | error why =>
        dsimp only at h
        exact Option.some.inj h
      | ok ws =>
        dsimp only at h
        dsimp only
        cases h2 : assembleLinesP rest labels pc1 with
        | none => rw [h2] at h; exact Option.noConfusion h
        | some r2 =>
          rw [h2] at h
          rw [ih pc1 r2 h2]
          cases r2 with
          | error why =>
            dsimp only at h
            exact Option.some.inj h
          | ok ws2 =>
            dsimp only at h
            exact Option.some.inj h

/-- Counterexample to C6 as stated: on the program `"add"` the source
dereferences the missing rd token (`&ir_tokens[1]`,
`src/assembler/src/assembler.rs` line 107) and panics, so the faithful
execution returns neither a word sequence for every line nor an error:
the all-or-nothing dichotomy fails at this input. -/
theorem C6_counterexample_missing_operand_panics :
    assemble_programP "add" = none
    ∧ (∀ ws : List Nat, assemble_programP "add" ≠ some (.ok ws))
    ∧ (∀ e, assemble_programP "add" ≠ some (.error e)) := by
  refine ⟨rfl, ?_, ?_⟩ <;> intro x hx <;>
    rw [show assemble_programP "add" = none from rfl] at hx <;>
    exact Option.noConfusion hx

/-- C6 (amended): on every program whose execution dereferences no missing
operand token (`assemble_programP` does not panic), `assemble_program` is
all-or-nothing: the faithful run returns the model's result, and that result
is either the concatenation, in source order, of the word groups of every
line, or the error of the first line whose assembly fails, with no partial
output; a program with a missing operand (such as `"add"`) panics instead,
yielding neither outcome. -/
theorem C6_all_or_nothing_without_operand_panic :
    (∀ program r, assemble_programP program = some r →
        assemble_program program = r)
    ∧ ∀ program r, assemble_programP program = some r →
        (∃ wss, LinesAssemble (parse_labels program) (splitLines program) 0 wss
            ∧ r = .ok wss.flatten)
        ∨ (∃ e, FirstLineFails (parse_labels program) (splitLines program) 0 e
            ∧ r = .error e) := by
  constructor
  · intro program r h
    exact assembleLinesP_agree _ _ _ _ h
  · intro program r h
    have hag : assembleLines (splitLines program) (parse_labels program) 0 = r :=
      assembleLinesP_agree _ _ _ _ h
    rcases assembleLines_all_or_nothing (splitLines program)
        (parse_labels program) 0 with ⟨wss, ha, heq⟩ | ⟨e, hf, heq⟩
    · exact Or.inl ⟨wss, ha, by rw [← hag, heq]⟩
    · exact Or.inr ⟨e, hf, by rw [← hag, heq]⟩

/-- Witness for C6 (amended) on a concrete two-line panic-free program. -/
theorem C6_all_or_nothing_without_operand_panic_witness :
    assemble_program "addi x1 x0 5\nadd x2 x1 x1" = .ok [0x00500093, 0x00108133]
    ∧ ((∃ wss, LinesAssemble (parse_labels "addi x1 x0 5\nadd x2 x1 x1")
            (splitLines "addi x1 x0 5\nadd x2 x1 x1") 0 wss
          ∧ (Except.ok [0x00500093, 0x00108133] :
              Except AssemblerError (List Nat)) = .ok wss.flatten)
        ∨ (∃ e, FirstLineFails (parse_labels "addi x1 x0 5\nadd x2 x1 x1")
            (splitLines "addi x1 x0 5\nadd x2 x1 x1") 0 e
          ∧ (Except.ok [0x00500093, 0x00108133] :
              Except AssemblerError (List Nat)) = .error e)) :=
  ⟨C6_all_or_nothing_without_operand_panic.1 "addi x1 x0 5\nadd x2 x1 x1"
      (.ok [0x00500093, 0x00108133]) (by rfl),
   C6_all_or_nothing_without_operand_panic.2 "addi x1 x0 5\nadd x2 x1 x1"
      (.ok [0x00500093, 0x00108133]) (by rfl)⟩

/-- Instruction-bearing line: tokenizes nonempty and is not a pure label
definition. -/
def instrBearing (line : String) : Bool :=
  !(tokenize line).isEmpty && !(stripLeadingLabel (tokenize line)).isEmpty

/-- A successfully assembled non-pseudo line yields one word exactly when it
is instruction-bearing. -/
theorem assemble_ir_ok_length (line : String) (labels : Labels)
    (pc : Nat) (ws : List Nat) (pcF : Nat)
    (hp : pseudoExpand (stripLeadingLabel (tokenize line)) = none)
    (h : assemble_ir line labels pc = (.ok ws, pcF)) :
    ws.length = if instrBearing line then 1 else 0 := by
  by_cases h1 : tokenize line = []
  · simp only [assemble_ir, h1, if_pos] at h
    simp only [Prod.mk.injEq, Except.ok.injEq] at h
    rw [← h.1]
    simp [instrBearing, h1]
  · by_cases h2 : 5 < (tokenize line).length
    · simp [assemble_ir, h1, h2] at h
    · by_cases h3 : stripLeadingLabel (tokenize line) = []
      · simp only [assemble_ir, if_neg h1, if_neg h2, if_pos h3] at h
        simp only [Prod.mk.injEq, Except.ok.injEq] at h
        rw [← h.1]
        simp [instrBearing, h1, h3]
      · simp only [assemble_ir, if_neg h1, if_neg h2, if_neg h3,
          transform_psuedo_ir, hp] at h
        cases ho : assembleOneIr (stripLeadingLabel (tokenize line))
            labels pc with
        | error why =>
          simp [assembleIrLoop, ho] at h
        | ok w =>
          simp only [assembleIrLoop, ho] at h
          simp only [Prod.mk.injEq, Except.ok.injEq] at h
          rw [← h.1]
          simp [instrBearing, h1, h3]

/-- Word count of the line loop on pseudo-free programs. -/
theorem assembleLines_length (lines : List String) (labels : Labels)
    (pc : Nat) (ws : List Nat)
    (hp : ∀ l ∈ lines, pseudoExpand (stripLeadingLabel (tokenize l)) = none)
    (h : assembleLines lines labels pc = .ok ws) :
    ws.length = (lines.filter instrBearing).length := by
  induction lines generalizing pc ws with
  | nil =>
    simp only [assembleLines, Except.ok.injEq] at h
    rw [← h]
    simp
  | cons l rest ih =>
    cases h1 : assemble_ir l labels pc with
    | mk r pcNext =>
      cases r with
      | error why => simp [assembleLines, h1] at h
      | ok ws1 =>
        cases h2 : assembleLines rest labels pcNext with
        | error why => simp [assembleLines, h1, h2] at h
        | ok ws2 =>
          simp only [assembleLines, h1, h2, Except.ok.injEq] at h
          rw [← h]
          have hl1 := assemble_ir_ok_length l labels pc ws1 pcNext
            (hp l (by simp)) h1
          have hl2 := ih pcNext ws2
            (fun x hx => hp x (List.mem_cons_of_mem l hx)) h2
          by_cases hb : instrBearing l <;>
            (simp [List.filter_cons, hb, hl1, hl2]; try omega)

/-- C7: on a program that assembles successfully and contains no
pseudo-instructions, the number of emitted words equals the number of
instruction-bearing lines (lines that are neither blank/comment-only nor
label-definition-only), in source order. -/
theorem C7_word_count_equals_instruction_lines :
    ∀ program ws,
      assemble_program program = .ok ws →
      (∀ l ∈ splitLines program,
          pseudoExpand (stripLeadingLabel (tokenize l)) = none) →
      ws.length = ((splitLines program).filter instrBearing).length := by
  intro program ws h hp
  exact assembleLines_length (splitLines program) (parse_labels program)
    0 ws hp h

/-- Witness for C7 on a four-line program (label-sharing line, plain
instruction, blank line, pure label line): two words, two
instruction-bearing lines. -/
theorem C7_word_count_equals_instruction_lines_witness :
    ([0x00500093, 0x00108133] : List Nat).length
      = ((splitLines "start: addi x1 x0 5\nadd x2 x1 x1\n\nend:").filter
          instrBearing).length :=
  C7_word_count_equals_instruction_lines
    "start: addi x1 x0 5\nadd x2 x1 x1\n\nend:"
    [0x00500093, 0x00108133] (by rfl) (by decide)

/-- Bits [s, s+k) of a word, as a number. -/
def getField (w s k : Nat) : Nat := (w >>> s) % 2 ^ k

/-- The value contributes no set bits on positions [s, s+k). -/
def ClearOn (v s k : Nat) : Prop := ∀ i, i < k → v.testBit (s + i) = false

/-- A mask keeps values under the corresponding power of two. -/
theorem masked_lt_two_pow (x k : Nat) : x &&& (2 ^ k - 1) < 2 ^ k :=
  Nat.lt_of_le_of_lt Nat.and_le_right
    (Nat.sub_lt (Nat.pow_pos (by norm_num)) (by norm_num))

/-- Masking is truncation to the low bits. -/
theorem and_mask_eq_mod (x k : Nat) : x &&& (2 ^ k - 1) = x % 2 ^ k := by
  apply Nat.eq_of_testBit_eq
  intro i
  rw [Nat.testBit_land, Nat.testBit_two_pow_sub_one, Nat.testBit_mod_two_pow,
    Bool.and_comm]

/-- Disjunction of clear values is clear. -/
theorem ClearOn.lor {a b s k : Nat} (ha : ClearOn a s k) (hb : ClearOn b s k) :
    ClearOn (a ||| b) s k := by
  intro i hi
  rw [Nat.testBit_lor, ha i hi, hb i hi]
  rfl

/-- A value shifted at or above the window is clear on it. -/
theorem clearOn_shiftLeft_high (x sh s k : Nat) (h : s + k ≤ sh) :
    ClearOn (x <<< sh) s k := by
  intro i hi
  rw [Nat.testBit_shiftLeft]
  have hlt : ¬ (s + i ≥ sh) := by omega
  simp [hlt]

/-- A bounded value shifted entirely below the window is clear on it. -/
theorem clearOn_shiftLeft_low (x m sh s k : Nat) (hx : x < 2 ^ m)
    (h : sh + m ≤ s) : ClearOn (x <<< sh) s k := by
  intro i hi
  rw [Nat.testBit_shiftLeft]
  rcases Nat.lt_or_ge (s + i) sh with hge | hge
  · have : ¬ (s + i ≥ sh) := by omega
    simp [this]
  · have hm : m ≤ s + i - sh := by omega
    have : x < 2 ^ (s + i - sh) :=
      Nat.lt_of_lt_of_le hx (Nat.pow_le_pow_right (by norm_num) hm)
    simp [Nat.testBit_lt_two_pow this]

/-- A value below the window base is clear on it. -/
theorem clearOn_of_lt (x s k : Nat) (hx : x < 2 ^ s) : ClearOn x s k := by
  intro i hi
  have : x < 2 ^ (s + i) :=
    Nat.lt_of_lt_of_le hx (Nat.pow_le_pow_right (by norm_num) (by omega))
  exact Nat.testBit_lt_two_pow this

/-- Extraction ignores clear contributions on the right of a disjunction. -/
theorem getField_lor_right (a b s k : Nat) (hb : ClearOn b s k) :
    getField (a ||| b) s k = getField a s k := by
  unfold getField
  apply Nat.eq_of_testBit_eq
  intro i
  rw [Nat.testBit_mod_two_pow, Nat.testBit_mod_two_pow,
    Nat.testBit_shiftRight, Nat.testBit_shiftRight, Nat.testBit_lor]
  by_cases hi : i < k
  · rw [hb i hi]
    simp
  · simp [hi]

/-- Extraction ignores clear contributions on the left of a disjunction. -/
theorem getField_lor_left (a b s k : Nat) (ha : ClearOn a s k) :
    getField (a ||| b) s k = getField b s k := by
  rw [Nat.lor_comm]
  exact getField_lor_right b a s k ha

/-- Extracting exactly the window of a bounded shifted value recovers it. -/
theorem getField_shiftLeft_exact (v s k : Nat) (hv : v < 2 ^ k) :
    getField (v <<< s) s k = v := by
  unfold getField
  apply Nat.eq_of_testBit_eq
  intro i
  rw [Nat.testBit_mod_two_pow, Nat.testBit_shiftRight, Nat.testBit_shiftLeft]
  by_cases hi : i < k
  · have hs : s + i ≥ s := Nat.le_add_right s i
    simp [hi, hs, Nat.add_sub_cancel_left]
  · have h1 : v.testBit i = false :=
      Nat.testBit_lt_two_pow
        (Nat.lt_of_lt_of_le hv (Nat.pow_le_pow_right (by norm_num)
          (Nat.le_of_not_lt hi)))
    simp [hi, h1]

/-- `encode_rd` only occupies bits [7, 12). -/
theorem clearOn_encode_rd (rd s k : Nat) (h : s + k ≤ 7 ∨ 12 ≤ s) :
    ClearOn (encode_rd rd) s k := by
  unfold encode_rd
  rcases h with h | h
  · exact clearOn_shiftLeft_high _ _ _ _ h
  · exact clearOn_shiftLeft_low _ 5 _ _ _ (masked_lt_two_pow rd 5) (by omega)

/-- `encode_rs1` only occupies bits [15, 20). -/
theorem clearOn_encode_rs1 (r s k : Nat) (h : s + k ≤ 15 ∨ 20 ≤ s) :
    ClearOn (encode_rs1 r) s k := by
  unfold encode_rs1
  rcases h with h | h
  · exact clearOn_shiftLeft_high _ _ _ _ h
  · exact clearOn_shiftLeft_low _ 5 _ _ _ (masked_lt_two_pow r 5) (by omega)

/-- `encode_rs2` only occupies bits [20, 25). -/
theorem clearOn_encode_rs2 (r s k : Nat) (h : s + k ≤ 20 ∨ 25 ≤ s) :
    ClearOn (encode_rs2 r) s k := by
  unfold encode_rs2
  rcases h with h | h
  · exact clearOn_shiftLeft_high _ _ _ _ h
  · exact clearOn_shiftLeft_low _ 5 _ _ _ (masked_lt_two_pow r 5) (by omega)

/-- `encode_func3` only occupies bits [12, 15). -/
theorem clearOn_encode_func3 (f s k : Nat) (h : s + k ≤ 12 ∨ 15 ≤ s) :
    ClearOn (encode_func3 f) s k := by
  unfold encode_func3
  rcases h with h | h
  · exact clearOn_shiftLeft_high _ _ _ _ h
  · exact clearOn_shiftLeft_low _ 3 _ _ _ (masked_lt_two_pow f 3) (by omega)

/-- `encode_func7` only occupies bits [25, 32). -/
theorem clearOn_encode_func7 (f s k : Nat) (h : s + k ≤ 25) :
    ClearOn (encode_func7 f) s k :=
  clearOn_shiftLeft_high _ _ _ _ h

/-- `encode_opcode` stays under bit 7. -/
theorem clearOn_encode_opcode (op s k : Nat) (h : 7 ≤ s) :
    ClearOn (encode_opcode op) s k := by
  unfold encode_opcode
  exact clearOn_of_lt _ _ _
    (Nat.lt_of_lt_of_le (masked_lt_two_pow op 7)
      (Nat.pow_le_pow_right (by norm_num) h))

/-- `encode_i_imm` only occupies bits [20, 32). -/
theorem clearOn_encode_i_imm (imm : Int) (s k : Nat) (h : s + k ≤ 20) :
    ClearOn (encode_i_imm imm) s k :=
  clearOn_shiftLeft_high _ _ _ _ h

/-- `encode_u_imm` only occupies bits [12, 32). -/
theorem clearOn_encode_u_imm (imm : Int) (s k : Nat) (h : s + k ≤ 12) :
    ClearOn (encode_u_imm imm) s k :=
  clearOn_shiftLeft_high _ _ _ _ h

/-- `encode_j_imm` only occupies bits [12, 32). -/
theorem clearOn_encode_j_imm (imm : Int) (s k : Nat) (h : s + k ≤ 12) :
    ClearOn (encode_j_imm imm) s k := by
  unfold encode_j_imm
  exact ((( clearOn_shiftLeft_high _ 31 _ _ (by omega)).lor
    (clearOn_shiftLeft_high _ 21 _ _ (by omega))).lor
    (clearOn_shiftLeft_high _ 20 _ _ (by omega))).lor
    (clearOn_shiftLeft_high _ 12 _ _ (by omega))

/-- `encode_s_imm` only occupies bits [7, 12) and [25, 32). -/
theorem clearOn_encode_s_imm (imm : Int) (s k : Nat)
    (h : s + k ≤ 7 ∨ (12 ≤ s ∧ s + k ≤ 25)) : ClearOn (encode_s_imm imm) s k := by
  unfold encode_s_imm
  rcases h with h | ⟨h1, h2⟩
  · exact (clearOn_shiftLeft_high _ 7 _ _ (by omega)).lor
      (clearOn_shiftLeft_high _ 25 _ _ (by omega))
  · exact (clearOn_shiftLeft_low _ 5 7 _ _
        (masked_lt_two_pow _ 5) (by omega)).lor
      (clearOn_shiftLeft_high _ 25 _ _ (by omega))

/-- `encode_b_imm` only occupies bits 7, [8, 12), [25, 31) and 31. -/
theorem clearOn_encode_b_imm (imm : Int) (s k : Nat)
    (h : s + k ≤ 7 ∨ (12 ≤ s ∧ s + k ≤ 25)) : ClearOn (encode_b_imm imm) s k := by
  unfold encode_b_imm
  rcases h with h | ⟨h1, h2⟩
  · exact (((clearOn_shiftLeft_high _ 31 _ _ (by omega)).lor
      (clearOn_shiftLeft_high _ 25 _ _ (by omega))).lor
      (clearOn_shiftLeft_high _ 8 _ _ (by omega))).lor
      (clearOn_shiftLeft_high _ 7 _ _ (by omega))
  · exact (((clearOn_shiftLeft_high _ 31 _ _ (by omega)).lor
      (clearOn_shiftLeft_high _ 25 _ _ (by omega))).lor
      (clearOn_shiftLeft_low _ 4 8 _ _ (masked_lt_two_pow _ 4) (by omega))).lor
      (clearOn_shiftLeft_low _ 1 7 _ _ (masked_lt_two_pow _ 1) (by omega))

/-- Extracting bits [0, 7) of `encode_opcode` recovers a 7-bit opcode. -/
theorem getField_encode_opcode (op : Nat) (h : op < 128) :
    getField (encode_opcode op) 0 7 = op := by
  unfold getField encode_opcode
  rw [Nat.shiftRight_zero, show (0x7f : Nat) = 2 ^ 7 - 1 from rfl,
    and_mask_eq_mod]
  simp only [Nat.mod_eq_of_lt (show op < 2 ^ 7 from h)]

/-- Extracting bits [7, 12) of `encode_rd` recovers a 5-bit rd. -/
theorem getField_encode_rd (rd : Nat) (h : rd < 32) :
    getField (encode_rd rd) 7 5 = rd := by
  unfold encode_rd
  rw [show (0x1f : Nat) = 2 ^ 5 - 1 from rfl,
    getField_shiftLeft_exact _ _ _ (masked_lt_two_pow rd 5),
    and_mask_eq_mod, Nat.mod_eq_of_lt (show rd < 2 ^ 5 from h)]

/-- Extracting bits [15, 20) of `encode_rs1` recovers a 5-bit rs1. -/
theorem getField_encode_rs1 (r : Nat) (h : r < 32) :
    getField (encode_rs1 r) 15 5 = r := by
  unfold encode_rs1
  rw [show (0x1f : Nat) = 2 ^ 5 - 1 from rfl,
    getField_shiftLeft_exact _ _ _ (masked_lt_two_pow r 5),
    and_mask_eq_mod, Nat.mod_eq_of_lt (show r < 2 ^ 5 from h)]

/-- Extracting bits [20, 25) of `encode_rs2` recovers a 5-bit rs2. -/
theorem getField_encode_rs2 (r : Nat) (h : r < 32) :
    getField (encode_rs2 r) 20 5 = r := by
  unfold encode_rs2
  rw [show (0x1f : Nat) = 2 ^ 5 - 1 from rfl,
    getField_shiftLeft_exact _ _ _ (masked_lt_two_pow r 5),
    and_mask_eq_mod, Nat.mod_eq_of_lt (show r < 2 ^ 5 from h)]

/-- Extracting bits [12, 15) of `encode_func3` recovers a 3-bit func3. -/
theorem getField_encode_func3 (f : Nat) (h : f < 8) :
    getField (encode_func3 f) 12 3 = f := by
  unfold encode_func3
  rw [show (0x7 : Nat) = 2 ^ 3 - 1 from rfl,
    getField_shiftLeft_exact _ _ _ (masked_lt_two_pow f 3),
    and_mask_eq_mod, Nat.mod_eq_of_lt (show f < 2 ^ 3 from h)]

/-- Extracting bits [25, 32) of `encode_func7` recovers a 7-bit func7. -/
theorem getField_encode_func7 (f : Nat) (h : f < 128) :
    getField (encode_func7 f) 25 7 = f := by
  unfold encode_func7
  rw [show (0x7f : Nat) = 2 ^ 7 - 1 from rfl,
    getField_shiftLeft_exact _ _ _ (masked_lt_two_pow f 7),
    and_mask_eq_mod, Nat.mod_eq_of_lt (show f < 2 ^ 7 from h)]

/-- Every opcode value in the mnemonic table is a 7-bit value. -/
theorem opcodeTable_lt : ∀ p ∈ opcodeTable, p.2 < 128 := by decide

/-- Every register index in the register table is a 5-bit value. -/
theorem registerTable_lt : ∀ p ∈ registerTable, p.2 < 32 := by decide

/-- Every func3 value in the table is a 3-bit value. -/
theorem func3Table_lt : ∀ p ∈ func3Table, p.2 < 8 := by decide

/-- Every func7 value in the table is a 7-bit value. -/
theorem func7Table_lt : ∀ p ∈ func7Table, p.2 < 128 := by decide

/-- A successfully matched opcode is a 7-bit value. -/
theorem match_opcode_ok_lt (s : String) (opcode : Nat)
    (h : match_opcode s = .ok opcode) : opcode < 128 := by
  unfold match_opcode at h
  cases hf : opcodeTable.find? (fun p => p.1 = s) with
  | none => rw [hf] at h; simp_all
  | some p =>
    rw [hf] at h
    simp only [Except.ok.injEq] at h
    exact h ▸ opcodeTable_lt p (List.mem_of_find?_eq_some hf)

/-- A successfully matched register index is a 5-bit value. -/
theorem match_register_ok_lt (s : String) (r : Nat)
    (h : match_register s = .ok r) : r < 32 := by
  unfold match_register at h
  cases hf : registerTable.find? (fun p => p.1 = s) with
  | none => rw [hf] at h; simp_all
  | some p =>
    rw [hf] at h
    simp only [Except.ok.injEq] at h
    exact h ▸ registerTable_lt p (List.mem_of_find?_eq_some hf)

/-- `match_func3` always yields a 3-bit value. -/
theorem match_func3_lt (op : String) : match_func3 op < 8 := by
  unfold match_func3
  cases hf : func3Table.find? (fun p => p.1 = op) with
  | none => simp
  | some p => simpa using func3Table_lt p (List.mem_of_find?_eq_some hf)

/-- `match_func7` always yields a 7-bit value. -/
theorem match_func7_lt (op : String) : match_func7 op < 128 := by
  unfold match_func7
  cases hf : func7Table.find? (fun p => p.1 = op) with
  | none => simp
  | some p => simpa using func7Table_lt p (List.mem_of_find?_eq_some hf)

/-- Success shape of the rd stage. -/
theorem encodeRdField_ok (format : InstructionFormat) (toks : List String)
    (ir irOut : Nat) (h : encodeRdField format toks ir = .ok irOut) :
    (usesRd format = true → ∃ rd,
        match_register (tokenAt toks 1) = .ok rd ∧ irOut = ir ||| encode_rd rd)
    ∧ (usesRd format = false → irOut = ir) := by
  constructor
  · intro hu
    simp only [encodeRdField, hu, if_true] at h
    cases hr : match_register (tokenAt toks 1) with
    | error why => rw [hr] at h; simp_all
    | ok rd =>
      rw [hr] at h
      simp only [Except.ok.injEq] at h
      exact ⟨rd, rfl, h.symm⟩
  · intro hu
    simp only [encodeRdField, hu, Bool.false_eq_true, if_false,
      Except.ok.injEq] at h
    exact h.symm

/-- Success shape of the rs1/func3 stage. -/
theorem encodeRs1Field_ok (opcode : Nat) (format : InstructionFormat)
    (toks : List String) (ir irOut : Nat)
    (h : encodeRs1Field opcode format toks ir = .ok irOut) :
    (usesRs1 format = true → ∃ rs1,
        match_register (tokenAt toks (rs1TokenIndex opcode)) = .ok rs1
        ∧ irOut = ir ||| encode_rs1 rs1
            ||| encode_func3 (match_func3 (tokenAt toks 0)))
    ∧ (usesRs1 format = false → irOut = ir) := by
  constructor
  · intro hu
    simp only [encodeRs1Field, hu, if_true] at h
    cases hr : match_register (tokenAt toks (rs1TokenIndex opcode)) with
    | error why => rw [hr] at h; simp_all
    | ok rs1 =>
      rw [hr] at h
      simp only [Except.ok.injEq] at h
      exact ⟨rs1, rfl, h.symm⟩
  · intro hu
    simp only [encodeRs1Field, hu, Bool.false_eq_true, if_false,
      Except.ok.injEq] at h
    exact h.symm

/-- Success shape of the rs2 stage. -/
theorem encodeRs2Field_ok (opcode : Nat) (format : InstructionFormat)
    (toks : List String) (ir irOut : Nat)
    (h : encodeRs2Field opcode format toks ir = .ok irOut) :
    (usesRs2 format = true → ∃ rs2,
        match_register (tokenAt toks (rs2TokenIndex opcode)) = .ok rs2
        ∧ irOut = ir ||| encode_rs2 rs2)
    ∧ (usesRs2 format = false → irOut = ir) := by
  constructor
  · intro hu
    simp only [encodeRs2Field, hu, if_true] at h
    cases hr : match_register (tokenAt toks (rs2TokenIndex opcode)) with
    | error why => rw [hr] at h; simp_all
    | ok rs2 =>
      rw [hr] at h
      simp only [Except.ok.injEq] at h
      exact ⟨rs2, rfl, h.symm⟩
  · intro hu
    simp only [encodeRs2Field, hu, Bool.false_eq_true, if_false,
      Except.ok.injEq] at h
    exact h.symm

/-- Success shape of the immediate stage, by format. -/
theorem encodeImmField_ok (opcode : Nat) (format : InstructionFormat)
    (toks : List String) (labels : Labels) (pc ir w : Nat)
    (h : encodeImmField opcode format toks labels pc ir = .ok w) :
    (format = .Itype → ∃ imm,
        parse_imm (tokenAt toks (iImmTokenIndex opcode)) labels pc = .ok imm
        ∧ w = ir ||| encode_i_imm imm)
    ∧ (format = .Utype → ∃ imm,
        parse_imm (tokenAt toks 2) labels pc = .ok imm
        ∧ w = ir ||| encode_u_imm imm)
    ∧ (format = .Jtype → ∃ imm,
        parse_imm (tokenAt toks 2) labels pc = .ok imm
        ∧ w = ir ||| encode_j_imm imm)
    ∧ (format = .Btype → ∃ imm,
        parse_imm (tokenAt toks 3) labels pc = .ok imm
        ∧ w = ir ||| encode_b_imm imm)
    ∧ (format = .Stype → ∃ imm,
        parse_imm (tokenAt toks 2) labels pc = .ok imm
        ∧ w = ir ||| encode_s_imm imm)
    ∧ (format = .Rtype → w = ir) := by
  refine ⟨?_, ?_, ?_, ?_, ?_, ?_⟩ <;> intro hf <;> subst hf <;>
    simp only [encodeImmField] at h
  · cases hi : parse_imm (tokenAt toks (iImmTokenIndex opcode)) labels pc with
    | error why => rw [hi] at h; simp_all
    | ok imm =>
      rw [hi] at h
      simp only [Except.ok.injEq] at h
      exact ⟨imm, rfl, h.symm⟩
  · cases hi : parse_imm (tokenAt toks 2) labels pc with
    | error why => rw [hi] at h; simp_all
    | ok imm =>
      rw [hi] at h
      simp only [Except.ok.injEq] at h
      exact ⟨imm, rfl, h.symm⟩
  · cases hi : parse_imm (tokenAt toks 2) labels pc with
    | error why => rw [hi] at h; simp_all
    | ok imm =>
      rw [hi] at h
      simp only [Except.ok.injEq] at h
      exact ⟨imm, rfl, h.symm⟩
  · cases hi : parse_imm (tokenAt toks 3) labels pc with
    | error why => rw [hi] at h; simp_all
    | ok imm =>
      rw [hi] at h
      simp only [Except.ok.injEq] at h
      exact ⟨imm, rfl, h.symm⟩
  · cases hi : parse_imm (tokenAt toks 2) labels pc with
    | error why => rw [hi] at h; simp_all
    | ok imm =>
      rw [hi] at h
      simp only [Except.ok.injEq] at h
      exact ⟨imm, rfl, h.symm⟩
  · simp only [Except.ok.injEq] at h
    exact h.symm

/-- Success shape of `assembleOneIr`: the word passes through every stage. -/
theorem assembleOneIr_ok (toks : List String) (labels : Labels) (pc w : Nat)
    (h : assembleOneIr toks labels pc = .ok w) :
    ∃ opcode format ir1 ir2 ir3,
      match_opcode (tokenAt toks 0) = .ok opcode
      ∧ classifyFormat opcode = some format
      ∧ encodeRdField format toks (encode_opcode opcode) = .ok ir1
      ∧ encodeRs1Field opcode format toks ir1 = .ok ir2
      ∧ encodeRs2Field opcode format toks ir2 = .ok ir3
      ∧ encodeImmField opcode format toks labels pc
          (encodeFunc7Field format toks ir3) = .ok w := by
  unfold assembleOneIr at h
  split at h
  next why ho => exact absurd h (by simp)
  next opcode ho =>
    split at h
    next hc => exact absurd h (by simp)
    next format hc =>
      split at h
      next why h1 => exact absurd h (by simp)
      next ir1 h1 =>
        split at h
        next why h2 => exact absurd h (by simp)
        next ir2 h2 =>
          split at h
          next why h3 => exact absurd h (by simp)
          next ir3 h3 =>
            exact ⟨opcode, format, ir1, ir2, ir3, ho, hc, h1, h2, h3, h⟩

/-- Every word of a successful expansion loop comes from `assembleOneIr`. -/
theorem assembleIrLoop_words (irs : List (List String)) (labels : Labels)
    (pc : Nat) (ws : List Nat) (pcF : Nat)
    (h : assembleIrLoop irs labels pc = (.ok ws, pcF)) :
    ∀ w ∈ ws, ∃ toks pc0, assembleOneIr toks labels pc0 = .ok w := by
  induction irs generalizing pc ws pcF with
  | nil =>
    simp only [assembleIrLoop, Prod.mk.injEq, Except.ok.injEq] at h
    rw [← h.1]
    simp
  | cons t rest ih =>
    unfold assembleIrLoop at h
    cases h1 : assembleOneIr t labels pc with
    | error why => rw [h1] at h; simp at h
    | ok w0 =>
      rw [h1] at h
      cases h2 : assembleIrLoop rest labels (pc + 4) with
      | mk r pc2 =>
        rw [h2] at h
        cases r with
        | error why => simp at h
        | ok ws2 =>
          simp only [Prod.mk.injEq, Except.ok.injEq] at h
          rw [← h.1]
          intro w hw
          rcases List.mem_cons.mp hw with hw | hw
          · exact ⟨t, pc, hw ▸ h1⟩
          · exact ih (pc + 4) ws2 pc2 h2 w hw

/-- C5: every word produced by `assemble_ir` comes from `assembleOneIr`, and
each such word carries the opcode in bits[6:0]; rd in bits[11:7] for R-, I-
and U-type; func3 in bits[14:12] and rs1 in bits[19:15] for R-, I-, S- and
B-type; rs2 in bits[24:20] for R-, S- and B-type; func7 in bits[31:25] for
R-type; the format being `classifyFormat` of the opcode alone. -/
theorem C5_encoded_word_bit_layout :
    (∀ line labels pc ws, (assemble_ir line labels pc).1 = .ok ws →
        ∀ w ∈ ws, ∃ toks pc0, assembleOneIr toks labels pc0 = .ok w)
    ∧ ∀ toks labels pc w opcode format,
        assembleOneIr toks labels pc = .ok w →
        match_opcode (tokenAt toks 0) = .ok opcode →
        classifyFormat opcode = some format →
        getField w 0 7 = opcode
        ∧ (usesRd format = true → ∃ rd,
            match_register (tokenAt toks 1) = .ok rd ∧ getField w 7 5 = rd)
        ∧ (usesRs1 format = true →
            getField w 12 3 = match_func3 (tokenAt toks 0)
            ∧ ∃ rs1,
                match_register (tokenAt toks (rs1TokenIndex opcode)) = .ok rs1
                ∧ getField w 15 5 = rs1)
        ∧ (usesRs2 format = true → ∃ rs2,
            match_register (tokenAt toks (rs2TokenIndex opcode)) = .ok rs2
            ∧ getField w 20 5 = rs2)
        ∧ (usesFunc7 format = true →
            getField w 25 7 = match_func7 (tokenAt toks 0)) := by
  constructor
  · intro line labels pc ws h w hw
    by_cases h1 : tokenize line = []
    · simp [assemble_ir, h1] at h
      subst h
      simp at hw
    · by_cases h2 : 5 < (tokenize line).length
      · simp [assemble_ir, h1, h2] at h
      · by_cases h3 : stripLeadingLabel (tokenize line) = []
        · simp [assemble_ir, h1, h2, h3] at h
          subst h
          simp at hw
        · obtain ⟨irs, ht⟩ :=
            transform_psuedo_ir_ok (stripLeadingLabel (tokenize line))
          simp only [assemble_ir, if_neg h1, if_neg h2, if_neg h3, ht] at h
          cases hl : assembleIrLoop irs labels pc with
          | mk r pcF =>
            rw [hl] at h
            cases r with
            | error why => simp at h
            | ok ws2 =>
              simp only [Except.ok.injEq] at h
              exact assembleIrLoop_words irs labels pc ws2 pcF hl w
                (by rw [h]; exact hw)
  · intro toks labels pc w opcode format h ho hc
    obtain ⟨opcode', format', ir1, ir2, ir3, ho', hc', h1, h2, h3, h4⟩ :=
      assembleOneIr_ok toks labels pc w h
    rw [ho] at ho'
    simp only [Except.ok.injEq] at ho'
    subst ho'
    rw [hc] at hc'
    simp only [Option.some.injEq] at hc'
    subst hc'
    have hop_lt := match_opcode_ok_lt _ _ ho
    have hf3_lt := match_func3_lt (tokenAt toks 0)
    have hf7_lt := match_func7_lt (tokenAt toks 0)
    cases format with
    | Rtype =>
      obtain ⟨rd, hrdm, hir1⟩ := (encodeRdField_ok _ _ _ _ h1).1 rfl
      obtain ⟨rs1, hrs1m, hir2⟩ := (encodeRs1Field_ok _ _ _ _ _ h2).1 rfl
      obtain ⟨rs2, hrs2m, hir3⟩ := (encodeRs2Field_ok _ _ _ _ _ h3).1 rfl
      have hw : w = ir3 ||| encode_func7 (match_func7 (tokenAt toks 0)) := by
        have hi := (encodeImmField_ok _ _ _ _ _ _ _ h4).2.2.2.2.2 rfl
        simpa [encodeFunc7Field, usesFunc7] using hi
      subst hir1
      subst hir2
      subst hir3
      have hrd_lt := match_register_ok_lt _ _ hrdm
      have hrs1_lt := match_register_ok_lt _ _ hrs1m
      have hrs2_lt := match_register_ok_lt _ _ hrs2m
      refine ⟨?_, fun _ => ⟨rd, hrdm, ?_⟩, fun _ => ⟨?_, rs1, hrs1m, ?_⟩,
        fun _ => ⟨rs2, hrs2m, ?_⟩, fun _ => ?_⟩
      · rw [hw,
          getField_lor_right _ _ _ _ (clearOn_encode_func7 _ _ _ (by omega)),
          getField_lor_right _ _ _ _
            (clearOn_encode_rs2 _ _ _ (Or.inl (by omega))),
          getField_lor_right _ _ _ _
            (clearOn_encode_func3 _ _ _ (Or.inl (by omega))),
          getField_lor_right _ _ _ _
            (clearOn_encode_rs1 _ _ _ (Or.inl (by omega))),
          getField_lor_right _ _ _ _
            (clearOn_encode_rd _ _ _ (Or.inl (by omega)))]
        exact getField_encode_opcode opcode hop_lt
      · rw [hw,
          getField_lor_right _ _ _ _ (clearOn_encode_func7 _ _ _ (by omega)),
          getField_lor_right _ _ _ _
            (clearOn_encode_rs2 _ _ _ (Or.inl (by omega))),
          getField_lor_right _ _ _ _
            (clearOn_encode_func3 _ _ _ (Or.inl (by omega))),
          getField_lor_right _ _ _ _
            (clearOn_encode_rs1 _ _ _ (Or.inl (by omega))),
          getField_lor_left _ _ _ _ (clearOn_encode_opcode _ _ _ (by omega))]
        exact getField_encode_rd rd hrd_lt
      · rw [hw,
          getField_lor_right _ _ _ _ (clearOn_encode_func7 _ _ _ (by omega)),
          getField_lor_right _ _ _ _
            (clearOn_encode_rs2 _ _ _ (Or.inl (by omega))),
          getField_lor_left _ _ _ _
            (((clearOn_encode_opcode _ _ _ (by omega)).lor
              (clearOn_encode_rd _ _ _ (Or.inr (by omega)))).lor
              (clearOn_encode_rs1 _ _ _ (Or.inl (by omega))))]
        exact getField_encode_func3 _ hf3_lt
      · rw [hw,
          getField_lor_right _ _ _ _ (clearOn_encode_func7 _ _ _ (by omega)),
          getField_lor_right _ _ _ _
            (clearOn_encode_rs2 _ _ _ (Or.inl (by omega))),
          getField_lor_right _ _ _ _
            (clearOn_encode_func3 _ _ _ (Or.inr (by omega))),
          getField_lor_left _ _ _ _
            ((clearOn_encode_opcode _ _ _ (by omega)).lor
              (clearOn_encode_rd _ _ _ (Or.inr (by omega))))]
        exact getField_encode_rs1 rs1 hrs1_lt
      · rw [hw,
          getField_lor_right _ _ _ _ (clearOn_encode_func7 _ _ _ (by omega)),
          getField_lor_left _ _ _ _
            ((((clearOn_encode_opcode _ _ _ (by omega)).lor
              (clearOn_encode_rd _ _ _ (Or.inr (by omega)))).lor
              (clearOn_encode_rs1 _ _ _ (Or.inr (by omega)))).lor
              (clearOn_encode_func3 _ _ _ (Or.inr (by omega))))]
        exact getField_encode_rs2 rs2 hrs2_lt
      · rw [hw,
          getField_lor_left _ _ _ _
            (((((clearOn_encode_opcode _ _ _ (by omega)).lor
              (clearOn_encode_rd _ _ _ (Or.inr (by omega)))).lor
              (clearOn_encode_rs1 _ _ _ (Or.inr (by omega)))).lor
              (clearOn_encode_func3 _ _ _ (Or.inr (by omega)))).lor
              (clearOn_encode_rs2 _ _ _ (Or.inr (by omega))))]
        exact getField_encode_func7 _ hf7_lt
    | Itype =>
      obtain ⟨rd, hrdm, hir1⟩ := (encodeRdField_ok _ _ _ _ h1).1 rfl
      obtain ⟨rs1, hrs1m, hir2⟩ := (encodeRs1Field_ok _ _ _ _ _ h2).1 rfl
      have hir3 : ir3 = ir2 := (encodeRs2Field_ok _ _ _ _ _ h3).2 rfl
      obtain ⟨imm, himmp, hw⟩ := (encodeImmField_ok _ _ _ _ _ _ _ h4).1 rfl
      rw [show encodeFunc7Field .Itype toks ir3 = ir3 from rfl] at hw
      subst hir3
      subst hir1
      subst hir2
      have hrd_lt := match_register_ok_lt _ _ hrdm
      have hrs1_lt := match_register_ok_lt _ _ hrs1m
      refine ⟨?_, fun _ => ⟨rd, hrdm, ?_⟩, fun _ => ⟨?_, rs1, hrs1m, ?_⟩,
        fun hko => absurd hko (by decide), fun hko => absurd hko (by decide)⟩
      · rw [hw,
          getField_lor_right _ _ _ _ (clearOn_encode_i_imm _ _ _ (by omega)),
          getField_lor_right _ _ _ _
            (clearOn_encode_func3 _ _ _ (Or.inl (by omega))),
          getField_lor_right _ _ _ _
            (clearOn_encode_rs1 _ _ _ (Or.inl (by omega))),
          getField_lor_right _ _ _ _
            (clearOn_encode_rd _ _ _ (Or.inl (by omega)))]
        exact getField_encode_opcode opcode hop_lt
      · rw [hw,
          getField_lor_right _ _ _ _ (clearOn_encode_i_imm _ _ _ (by omega)),
          getField_lor_right _ _ _ _
            (clearOn_encode_func3 _ _ _ (Or.inl (by omega))),
          getField_lor_right _ _ _ _
            (clearOn_encode_rs1 _ _ _ (Or.inl (by omega))),
          getField_lor_left _ _ _ _ (clearOn_encode_opcode _ _ _ (by omega))]
        exact getField_encode_rd rd hrd_lt
      · rw [hw,
          getField_lor_right _ _ _ _ (clearOn_encode_i_imm _ _ _ (by omega)),
          getField_lor_left _ _ _ _
            (((clearOn_encode_opcode _ _ _ (by omega)).lor
              (clearOn_encode_rd _ _ _ (Or.inr (by omega)))).lor
              (clearOn_encode_rs1 _ _ _ (Or.inl (by omega))))]
        exact getField_encode_func3 _ hf3_lt
      · rw [hw,
          getField_lor_right _ _ _ _ (clearOn_encode_i_imm _ _ _ (by omega)),
          getField_lor_right _ _ _ _
            (clearOn_encode_func3 _ _ _ (Or.inr (by omega))),
          getField_lor_left _ _ _ _
            ((clearOn_encode_opcode _ _ _ (by omega)).lor
              (clearOn_encode_rd _ _ _ (Or.inr (by omega))))]
        exact getField_encode_rs1 rs1 hrs1_lt
    | Utype =>
      obtain ⟨rd, hrdm, hir1⟩ := (encodeRdField_ok _ _ _ _ h1).1 rfl
      have hir2 : ir2 = ir1 := (encodeRs1Field_ok _ _ _ _ _ h2).2 rfl
      have hir3 : ir3 = ir2 := (encodeRs2Field_ok _ _ _ _ _ h3).2 rfl
      obtain ⟨imm, himmp, hw⟩ := (encodeImmField_ok _ _ _ _ _ _ _ h4).2.1 rfl
      rw [show encodeFunc7Field .Utype toks ir3 = ir3 from rfl] at hw
      subst hir3
      subst hir2
      subst hir1
      have hrd_lt := match_register_ok_lt _ _ hrdm
      refine ⟨?_, fun _ => ⟨rd, hrdm, ?_⟩,
        fun hko => absurd hko (by decide),
        fun hko => absurd hko (by decide),
        fun hko => absurd hko (by decide)⟩
      · rw [hw,
          getField_lor_right _ _ _ _ (clearOn_encode_u_imm _ _ _ (by omega)),
          getField_lor_right _ _ _ _
            (clearOn_encode_rd _ _ _ (Or.inl (by omega)))]
        exact getField_encode_opcode opcode hop_lt
      · rw [hw,
          getField_lor_right _ _ _ _ (clearOn_encode_u_imm _ _ _ (by omega)),
          getField_lor_left _ _ _ _ (clearOn_encode_opcode _ _ _ (by omega))]
        exact getField_encode_rd rd hrd_lt
    | Jtype =>
      have hir1 : ir1 = encode_opcode opcode :=
        (encodeRdField_ok _ _ _ _ h1).2 rfl
      have hir2 : ir2 = ir1 := (encodeRs1Field_ok _ _ _ _ _ h2).2 rfl
      have hir3 : ir3 = ir2 := (encodeRs2Field_ok _ _ _ _ _ h3).2 rfl
      obtain ⟨imm, himmp, hw⟩ :=
        (encodeImmField_ok _ _ _ _ _ _ _ h4).2.2.1 rfl
      rw [show encodeFunc7Field .Jtype toks ir3 = ir3 from rfl] at hw
      subst hir3
      subst hir2
      subst hir1
      refine ⟨?_, fun hko => absurd hko (by decide),
        fun hko => absurd hko (by decide),
        fun hko => absurd hko (by decide),
        fun hko => absurd hko (by decide)⟩
      rw [hw,
        getField_lor_right _ _ _ _ (clearOn_encode_j_imm _ _ _ (by omega))]
      exact getField_encode_opcode opcode hop_lt
    | Btype =>
      have hir1 : ir1 = encode_opcode opcode :=
        (encodeRdField_ok _ _ _ _ h1).2 rfl
      obtain ⟨rs1, hrs1m, hir2⟩ := (encodeRs1Field_ok _ _ _ _ _ h2).1 rfl
      obtain ⟨rs2, hrs2m, hir3⟩ := (encodeRs2Field_ok _ _ _ _ _ h3).1 rfl
      obtain ⟨imm, himmp, hw⟩ :=
        (encodeImmField_ok _ _ _ _ _ _ _ h4).2.2.2.1 rfl
      rw [show encodeFunc7Field .Btype toks ir3 = ir3 from rfl] at hw
      subst hir1
      subst hir2
      subst hir3
      have hrs1_lt := match_register_ok_lt _ _ hrs1m
      have hrs2_lt := match_register_ok_lt _ _ hrs2m
      refine ⟨?_, fun hko => absurd hko (by decide),
        fun _ => ⟨?_, rs1, hrs1m, ?_⟩, fun _ => ⟨rs2, hrs2m, ?_⟩,
        fun hko => absurd hko (by decide)⟩
      · rw [hw,
          getField_lor_right _ _ _ _
            (clearOn_encode_b_imm _ _ _ (Or.inl (by omega))),
          getField_lor_right _ _ _ _
            (clearOn_encode_rs2 _ _ _ (Or.inl (by omega))),
          getField_lor_right _ _ _ _
            (clearOn_encode_func3 _ _ _ (Or.inl (by omega))),
          getField_lor_right _ _ _ _
            (clearOn_encode_rs1 _ _ _ (Or.inl (by omega)))]
        exact getField_encode_opcode opcode hop_lt
      · rw [hw,
          getField_lor_right _ _ _ _
            (clearOn_encode_b_imm _ _ _ (Or.inr (by omega))),
          getField_lor_right _ _ _ _
            (clearOn_encode_rs2 _ _ _ (Or.inl (by omega))),
          getField_lor_left _ _ _ _
            ((clearOn_encode_opcode _ _ _ (by omega)).lor
              (clearOn_encode_rs1 _ _ _ (Or.inl (by omega))))]
        exact getField_encode_func3 _ hf3_lt
      · rw [hw,
          getField_lor_right _ _ _ _
            (clearOn_encode_b_imm _ _ _ (Or.inr (by omega))),
          getField_lor_right _ _ _ _
            (clearOn_encode_rs2 _ _ _ (Or.inl (by omega))),
          getField_lor_right _ _ _ _
            (clearOn_encode_func3 _ _ _ (Or.inr (by omega))),
          getField_lor_left _ _ _ _ (clearOn_encode_opcode _ _ _ (by omega))]
        exact getField_encode_rs1 rs1 hrs1_lt
      · rw [hw,
          getField_lor_right _ _ _ _
            (clearOn_encode_b_imm _ _ _ (Or.inr (by omega))),
          getField_lor_left _ _ _ _
            (((clearOn_encode_opcode _ _ _ (by omega)).lor
              (clearOn_encode_rs1 _ _ _ (Or.inr (by omega)))).lor
              (clearOn_encode_func3 _ _ _ (Or.inr (by omega))))]
        exact getField_encode_rs2 rs2 hrs2_lt
    | Stype =>
      have hir1 : ir1 = encode_opcode opcode :=
        (encodeRdField_ok _ _ _ _ h1).2 rfl
      obtain ⟨rs1, hrs1m, hir2⟩ := (encodeRs1Field_ok _ _ _ _ _ h2).1 rfl
      obtain ⟨rs2, hrs2m, hir3⟩ := (encodeRs2Field_ok _ _ _ _ _ h3).1 rfl
      obtain ⟨imm, himmp, hw⟩ :=
        (encodeImmField_ok _ _ _ _ _ _ _ h4).2.2.2.2.1 rfl
      rw [show encodeFunc7Field .Stype toks ir3 = ir3 from rfl] at hw
      subst hir1
      subst hir2
      subst hir3
      have hrs1_lt := match_register_ok_lt _ _ hrs1m
      have hrs2_lt := match_register_ok_lt _ _ hrs2m
      refine ⟨?_, fun hko => absurd hko (by decide),
        fun _ => ⟨?_, rs1, hrs1m, ?_⟩, fun _ => ⟨rs2, hrs2m, ?_⟩,
        fun hko => absurd hko (by decide)⟩
      · rw [hw,
          getField_lor_right _ _ _ _
            (clearOn_encode_s_imm _ _ _ (Or.inl (by omega))),
          getField_lor_right _ _ _ _
            (clearOn_encode_rs2 _ _ _ (Or.inl (by omega))),
          getField_lor_right _ _ _ _
            (clearOn_encode_func3 _ _ _ (Or.inl (by omega))),
          getField_lor_right _ _ _ _
            (clearOn_encode_rs1 _ _ _ (Or.inl (by omega)))]
        exact getField_encode_opcode opcode hop_lt
      · rw [hw,
          getField_lor_right _ _ _ _
            (clearOn_encode_s_imm _ _ _ (Or.inr (by omega))),
          getField_lor_right _ _ _ _
            (clearOn_encode_rs2 _ _ _ (Or.inl (by omega))),
          getField_lor_left _ _ _ _
            ((clearOn_encode_opcode _ _ _ (by omega)).lor
              (clearOn_encode_rs1 _ _ _ (Or.inl (by omega))))]
        exact getField_encode_func3 _ hf3_lt
      · rw [hw,
          getField_lor_right _ _ _ _
            (clearOn_encode_s_imm _ _ _ (Or.inr (by omega))),
          getField_lor_right _ _ _ _
            (clearOn_encode_rs2 _ _ _ (Or.inl (by omega))),
          getField_lor_right _ _ _ _
            (clearOn_encode_func3 _ _ _ (Or.inr (by omega))),
          getField_lor_left _ _ _ _ (clearOn_encode_opcode _ _ _ (by omega))]
        exact getField_encode_rs1 rs1 hrs1_lt
      · rw [hw,
          getField_lor_right _ _ _ _
            (clearOn_encode_s_imm _ _ _ (Or.inr (by omega))),
          getField_lor_left _ _ _ _
            (((clearOn_encode_opcode _ _ _ (by omega)).lor
              (clearOn_encode_rs1 _ _ _ (Or.inr (by omega)))).lor
              (clearOn_encode_func3 _ _ _ (Or.inr (by omega))))]
        exact getField_encode_rs2 rs2 hrs2_lt

/-- Witness for C5 at the concrete R-type instruction `add x1 x2 x3`
(word 0x003100b3). -/
theorem C5_encoded_word_bit_layout_witness :
    getField 0x003100b3 0 7 = 0x33
    ∧ (usesRd .Rtype = true → ∃ rd,
        match_register (tokenAt ["add", "x1", "x2", "x3"] 1) = .ok rd
        ∧ getField 0x003100b3 7 5 = rd)
    ∧ (usesRs1 .Rtype = true →
        getField 0x003100b3 12 3
            = match_func3 (tokenAt ["add", "x1", "x2", "x3"] 0)
        ∧ ∃ rs1,
            match_register (tokenAt ["add", "x1", "x2", "x3"]
              (rs1TokenIndex 0x33)) = .ok rs1
            ∧ getField 0x003100b3 15 5 = rs1)
    ∧ (usesRs2 .Rtype = true → ∃ rs2,
        match_register (tokenAt ["add", "x1", "x2", "x3"]
          (rs2TokenIndex 0x33)) = .ok rs2
        ∧ getField 0x003100b3 20 5 = rs2)
    ∧ (usesFunc7 .Rtype = true →
        getField 0x003100b3 25 7
            = match_func7 (tokenAt ["add", "x1", "x2", "x3"] 0)) :=
  C5_encoded_word_bit_layout.2 ["add", "x1", "x2", "x3"] [] 0 0x003100b3
    0x33 .Rtype (by rfl) (by rfl) (by rfl)
